import Mathlib

/-!
# LEDanalysis.C : the `Run` class and the `LEDanalysis` driver

A shallow embedding of `src/LEDanalysis.C` and the properties proved about it.

Conventions of the embedding.

* `Double_t` values are exact rationals (`ℚ`): the embedding describes the arithmetic the
  program performs, not the rounding of IEEE doubles.  A division by zero, whose IEEE result is
  not finite, has no counterpart here (`ℚ` gives `0`).
* The column `component` holds integer-valued doubles; it is an `Int` here and the C cast
  `(int)( . )` is truncation toward zero (`Int.tdiv`).
* A value the program obtains as `sqrt(v)` is carried by its radicand `v`: the fields `r`,
  `rOrdered`, `rOrderedCut` hold `x*x + y*y` for the double `sqrt(x*x + y*y)`, and `error`
  holds `var` for the double `sqrt(var)`.  The square root is strictly monotone on the
  non-negative numbers, so `==` and `<` on the roots are `=` and `<` on the radicands.
* A fixed-size C array is the list of its entries that have been written, from index 0.  Reading
  an entry that was never written yields `Fault.indeterminate`; stores past the capacity of an
  array are not part of the embedding (the list keeps the entries that fit).
* The exceptions `std::invalid_argument` and `std::out_of_range` are the two other faults.
-/

namespace PlotScripts

/-- Ways in which a step has no result: the two C++ exceptions the program can raise, and a read
of storage that was never written. -/
inductive Fault where
  | invalid_argument
  | out_of_range
  | indeterminate
  deriving DecidableEq, Repr

deriving instance DecidableEq for Except

/-- Read of entry `i` of an array: the entry when it has been written. -/
def read {α : Type} (arr : List α) (i : Nat) : Except Fault α :=
  match arr[i]? with
  | some v => .ok v
  | none => .error .indeterminate

/-- A loop `for (int i = 0; i < n; i++) out[i] = f(i);` that fills the first `n` entries of an
array. -/
def tabulate {α : Type} (n : Nat) (f : Nat → Except Fault α) : Except Fault (List α) :=
  (List.range n).mapM f

/-- Member `num`: 332 entries in the tables. -/
def num : Nat := 332

/-- Member `numMod`: 39 unique values for radial distances. -/
def numMod : Nat := 39

/-! ## Strings: `string::find`, `string::substr`, `stoi` -/

/-- Method `filename.find(pat)`: index of the first occurrence of `pat` in `s`, `none` for `npos`. -/
def find : List Char → List Char → Option Nat
  | [], pat => if pat.isPrefixOf [] then some 0 else none
  | c :: t, pat => if pat.isPrefixOf (c :: t) then some 0 else (find t pat).map (· + 1)

/-- Method `s.substr(pos, len)`: at most `len` characters from index `pos`; throws
`std::out_of_range` when `pos` exceeds the size of `s`. -/
def substr (s : List Char) (pos len : Nat) : Except Fault (List Char) :=
  if pos > s.length then .error .out_of_range else .ok ((s.drop pos).take len)

/-- The characters `isspace` accepts in the C locale. -/
def isSpace (c : Char) : Bool :=
  c = ' ' || c = '\t' || c = '\n' || c = '\x0b' || c = '\x0c' || c = '\r'

/-- Decimal digit test, `'0'` to `'9'`. -/
def isDigit (c : Char) : Bool := 48 ≤ c.toNat && c.toNat ≤ 57

/-- Value of a decimal digit character. -/
def digitVal (c : Char) : Nat := c.toNat - 48

/-- The optional sign `strtol` reads: whether it is a minus, and the characters after it. -/
def readSign : List Char → Bool × List Char
  | '-' :: t => (true, t)
  | '+' :: t => (false, t)
  | s => (false, s)

/-- Function `stoi(s)` (base 10, as `strtol`): skip leading white space, read an optional sign,
then the longest run of decimal digits; `std::invalid_argument` when there is no digit,
`std::out_of_range` when the value is not an `int`.  What follows the digits is ignored. -/
def stoi (s : List Char) : Except Fault Int :=
  let signed := readSign (s.dropWhile isSpace)
  let ds := signed.2.takeWhile isDigit
  if ds = [] then .error .invalid_argument
  else
    let n : Nat := ds.foldl (fun acc c => 10 * acc + digitVal c) 0
    let v : Int := if signed.1 then -(n : Int) else (n : Int)
    if v < -2147483648 ∨ 2147483647 < v then .error .out_of_range else .ok v

/-- The literal `"ftCalLed_-"` the constructor searches for. -/
def marker : List Char := ['f', 't', 'C', 'a', 'l', 'L', 'e', 'd', '_', '-']

/-! ## Geometry: lines 112-129 of the constructor -/

/-- The shift of a grid index to a crystal coordinate: `if (v <= 11) v = v - 12; else v = v - 11;`. -/
def shift (v : Int) : Int := if v ≤ 11 then v - 12 else v - 11

/-- Entry `y[i]` for `component[i] = c`: `(int)(c/22) + 1`, then shifted. -/
def gridY (c : Int) : Int := shift (Int.tdiv c 22 + 1)

/-- Entry `x[i]` for `component[i] = c`: `(int)(c + 1 - (y[i]-1)*22)` with the unshifted `y[i]`,
then shifted. -/
def gridX (c : Int) : Int := shift (c + 1 - ((Int.tdiv c 22 + 1) - 1) * 22)

/-- Radicand of `r[i] = sqrt(x[i]*x[i] + y[i]*y[i])`. -/
def radius (c : Int) : Int := gridX c * gridX c + gridY c * gridY c

/-! ## The distinct radii: lines 131-148 of the constructor -/

/-- Call `sort(rOrdered, rOrdered+n)`: ascending order. -/
def sort (l : List Int) : List Int := l.insertionSort (· ≤ ·)

/-- Call `std::unique` followed by the `resize`: of every run of adjacent equal values one is kept. -/
def unique : List Int → List Int
  | [] => []
  | [a] => [a]
  | a :: b :: t => if a = b then unique (b :: t) else a :: unique (b :: t)

/-- The local vector `rSorted` of the constructor, from the array `r`. -/
def rSorted (r : List Int) : List Int := unique (sort r)

/-! ## The class `Run` -/

/-- One line of an input file.  Of the nine columns only `component` and `ampMean` are used by the
computations; the other seven are read and kept for plots only. -/
structure Row where
  component : Int
  ampMean : ℚ
  deriving DecidableEq, Repr

/-- The data members of `Run` that the computations use. -/
structure Run where
  runNumber : List Char
  runNumberInt : Int
  component : List Int
  ampMean : List ℚ
  x : List Int
  y : List Int
  r : List Int
  rOrdered : List Int
  rOrderedCut : List Int
  ratio : List ℚ
  orderedRatios : List ℚ
  orderedRatioArray : List ℚ
  average : List ℚ
  error : List ℚ
  averageArray : List ℚ
  errorArray : List ℚ
  deriving DecidableEq, Repr

/-- A `Run` object on which only the run number has been set: no array entry is written and the
vectors are empty. -/
def Run.blank (runNumber : List Char) (runNumberInt : Int) : Run :=
  { runNumber := runNumber, runNumberInt := runNumberInt, component := [], ampMean := [],
    x := [], y := [], r := [], rOrdered := [], rOrderedCut := [], ratio := [],
    orderedRatios := [], orderedRatioArray := [], average := [], error := [],
    averageArray := [], errorArray := [] }

/-- Lines 84-86 of the constructor: `pos = filename.find("ftCalLed_-")` stored in an `int`
(`npos` becomes `-1`), `runNumber = filename.substr(pos+10,5)`, `runNumberInt = stoi(runNumber)`. -/
def parseRunNumber (filename : List Char) : Except Fault (List Char × Int) := do
  let pos : Int := match find filename marker with
    | some p => (p : Int)
    | none => -1
  let runNumber ← substr filename (pos + 10).toNat 5
  let runNumberInt ← stoi runNumber
  pure (runNumber, runNumberInt)

/-- Constructor `Run(const string filename)`.  `source` is what opening the file gives: `none`
when it cannot be opened, otherwise the rows the stream delivers.  The run number is parsed
first; a file that cannot be opened makes the constructor return right after the message, with
the object otherwise untouched.  A file with fewer than `num` rows leaves array entries
unwritten, which the geometry loop then reads: `Fault.indeterminate`. -/
def Run.construct (filename : List Char) (source : Option (List Row)) : Except Fault Run := do
  let number ← parseRunNumber filename
  match source with
  | none => pure (Run.blank number.1 number.2)
  | some rows =>
    let table := rows.take num
    if table.length < num then throw Fault.indeterminate
    else
      let component := table.map Row.component
      let r := component.map radius
      let rOrdered := sort r
      pure { Run.blank number.1 number.2 with
        component := component
        ampMean := table.map Row.ampMean
        x := component.map gridX
        y := component.map gridY
        r := r
        rOrdered := rOrdered
        rOrderedCut := (unique rOrdered).take 39 }

/-! ## Methods of `Run` -/

/-- Method `findLowestRun`, called as `this->findLowestRun(lowest)`. -/
def findLowestRun (this lowest : Run) : Run :=
  if lowest.runNumberInt > this.runNumberInt then this else lowest

/-- Method `lowestTest`, called as `this->lowestTest(current)`. -/
def lowestTest (this current : Run) : Bool :=
  decide (this.runNumberInt > current.runNumberInt)

/-- Method `setRatio`: `ratio[i] = this->ampMean[i] / lowest->ampMean[i]` for `i < num`. -/
def setRatio (this lowest : Run) : Except Fault Run := do
  let ratio ← tabulate num (fun i => do
    let a ← read this.ampMean i
    let b ← read lowest.ampMean i
    pure (a / b))
  pure { this with ratio := ratio }

/-- Body of the loop of `getError`:
`var = var + ((orderedRatioArray[start] - avg) * (orderedRatioArray[start] - avg));`. -/
def addDeviation (orderedRatioArray : List ℚ) (avg : ℚ) (var : ℚ) (i : Nat) : Except Fault ℚ := do
  let q ← read orderedRatioArray i
  pure (var + (q - avg) * (q - avg))

/-- Method `getError(avg, count, start, last)` over the array `orderedRatioArray`: the loop runs
over the indices `start, ..., last`; the value is the radicand `var` of the returned `sqrt(var)`. -/
def getError (orderedRatioArray : List ℚ) (avg : ℚ) (count : Nat) (start : Nat) (last : Int) :
    Except Fault ℚ := do
  let var ← (List.range' start (last + 1 - (start : Int)).toNat).foldlM
    (addDeviation orderedRatioArray avg) (0 : ℚ)
  pure (var / (count : ℚ))

/-- A group closed by the second pass of `setParameters`: the values of `count`, `avg` and (the
radicand of) `std` at the two `push_back` calls. -/
structure Group where
  count : Nat
  avg : ℚ
  std : ℚ
  deriving DecidableEq, Repr

/-- The closing of a group, written twice in the source:
`avg = sum/count; average.push_back(avg); std = getError(avg,count,start,last - 1);
error.push_back(std); break;`. -/
def closeGroup (orderedRatioArray : List ℚ) (sum : ℚ) (count start last : Nat) :
    Except Fault Group := do
  let avg := sum / (count : ℚ)
  let std ← getError orderedRatioArray avg count start ((last : Int) - 1)
  pure { count := count, avg := avg, std := std }

/-- The inner loop `for (last; last < num; last++)` of `setParameters` for the bin `trk`, entered
with the given `last`, `sum` and `count`.  The result is the value of `last` when the loop is
left and the group it closed, if any.  `fuel` bounds the number of iterations; `num` suffices,
as `last` grows by one in every iteration that does not leave the loop. -/
def binLoop (rOrderedCut rOrdered : List Int) (orderedRatioArray : List ℚ) (trk start : Nat) :
    Nat → Nat → ℚ → Nat → Except Fault (Nat × Option Group)
  | 0, last, _, _ => pure (last, none)
  | fuel + 1, last, sum, count =>
    if last < num then do
      let cut ← read rOrderedCut trk
      let ro ← read rOrdered last
      if cut = ro then do
        let q ← read orderedRatioArray last
        let sum := sum + q
        let count := count + 1
        if last = 331 then do
          let g ← closeGroup orderedRatioArray sum count start last
          pure (last, some g)
        else binLoop rOrderedCut rOrdered orderedRatioArray trk start fuel (last + 1) sum count
      else do
        let g ← closeGroup orderedRatioArray sum count start last
        pure (last, some g)
    else pure (last, none)

/-- The outer loop `for (trk; trk < 39; trk++)` of `setParameters`: `todo` iterations remain, the
groups closed so far are `groups`. -/
def trkLoop (rOrderedCut rOrdered : List Int) (orderedRatioArray : List ℚ) :
    Nat → Nat → Nat → List Group → Except Fault (List Group)
  | 0, _, _, groups => pure groups
  | todo + 1, trk, last, groups => do
    let res ← binLoop rOrderedCut rOrdered orderedRatioArray trk last num last 0 0
    let groups := match res.2 with
      | some g => groups ++ [g]
      | none => groups
    trkLoop rOrderedCut rOrdered orderedRatioArray todo (trk + 1) res.1 groups

/-- Body of the first loop nest of `setParameters`:
`if (rOrderedCut[i] == r[j]) orderedRatios.push_back(ratio[j]);`. -/
def pushIfMatch (run : Run) (i : Nat) (acc : List ℚ) (j : Nat) : Except Fault (List ℚ) := do
  let cut ← read run.rOrderedCut i
  let rj ← read run.r j
  if cut = rj then do
    let q ← read run.ratio j
    pure (acc ++ [q])
  else pure acc

/-- First loop nest of `setParameters`: for each of the 39 entries of `rOrderedCut`, the ratios of
the components with that radius are appended to `orderedRatios`. -/
def orderRatios (run : Run) : Except Fault (List ℚ) :=
  (List.range 39).foldlM (fun acc i =>
    (List.range num).foldlM (pushIfMatch run i) acc) run.orderedRatios

/-- The groups closed by the second loop nest of `setParameters`, in the order of closing. -/
def binGroups (run : Run) : Except Fault (List Group) := do
  let orderedRatios ← orderRatios run
  let orderedRatioArray :=
    (orderedRatios ++ run.orderedRatioArray.drop orderedRatios.length).take num
  trkLoop run.rOrderedCut run.rOrdered orderedRatioArray 39 0 0 []

/-- Method `setParameters`. -/
def setParameters (run : Run) : Except Fault Run := do
  let orderedRatios ← orderRatios run
  let orderedRatioArray :=
    (orderedRatios ++ run.orderedRatioArray.drop orderedRatios.length).take num
  let groups ← trkLoop run.rOrderedCut run.rOrdered orderedRatioArray 39 0 0 []
  let average := run.average ++ groups.map Group.avg
  let error := run.error ++ groups.map Group.std
  pure { run with
    orderedRatios := orderedRatios
    orderedRatioArray := orderedRatioArray
    average := average
    error := error
    averageArray := (average ++ run.averageArray.drop average.length).take 39
    errorArray := (error ++ run.errorArray.drop average.length).take 39 }

/-! ## The driver `LEDanalysis` -/

/-- The loop `collection[j] = new Run(path + testFiles[j])`: one `Run` object per file name,
whatever opening the file gives.  An exception leaves the loop. -/
def loadCollection (path : List Char) (testFiles : List (List Char))
    (source : List Char → Option (List Row)) : Except Fault (List Run) :=
  testFiles.mapM (fun f => Run.construct (path ++ f) (source (path ++ f)))

/-- The rest of one pass `for (slop = 0; slop < i-1; slop++)` of the bubble sort, `a` being the
run now at index `slop` and the list the runs after it.  The result is the array after the pass
and the value of `flag`. -/
def bubbleFrom (a : Run) : List Run → List Run × Bool
  | [] => ([a], false)
  | b :: t =>
    if lowestTest a b then
      let res := bubbleFrom a t
      (b :: res.1, true)
    else
      let res := bubbleFrom b t
      (a :: res.1, res.2)

/-- One pass of the bubble sort, entered with `flag = 0`. -/
def bubblePass : List Run → List Run × Bool
  | [] => ([], false)
  | a :: t => bubbleFrom a t

/-- The loop `for (spot = 1; (spot < i) && flag; spot++)`; `fuel` bounds the number of passes. -/
def orderLoop (i : Nat) : Nat → Nat → Bool → List Run → List Run
  | 0, _, _, collection => collection
  | fuel + 1, spot, flag, collection =>
    if spot < i ∧ flag = true then
      let res := bubblePass collection
      orderLoop i fuel (spot + 1) res.2 res.1
    else collection

/-- The ordering of the collection by the bubble sort: `spot` starts at 1 with `flag = 1`, and
there are fewer than `i` passes. -/
def orderRuns (collection : List Run) : List Run :=
  orderLoop collection.length collection.length 1 true collection

/-- The selection `Run* lowest = collection[0]; for (j < i) lowest =
collection[j]->findLowestRun(lowest);`.  With no run, `collection[0]` was never written. -/
def lowestRun (collection : List Run) : Option Run :=
  match collection with
  | [] => none
  | first :: _ => some (collection.foldl (fun lowest cj => findLowestRun cj lowest) first)

/-- The computations of `LEDanalysis` (the plots left out): load, order, select the baseline, set
the ratios, set the parameters. -/
def LEDanalysis (path : List Char) (testFiles : List (List Char))
    (source : List Char → Option (List Row)) : Except Fault (List Run) := do
  let collection ← loadCollection path testFiles source
  let collection := orderRuns collection
  match lowestRun collection with
  | none => pure collection
  | some lowest =>
    let collection ← collection.mapM (fun run => setRatio run lowest)
    collection.mapM setParameters

/-! ## Definitions that follow the specification -/

/-- The remap of the specification: `v - 12` if `v <= 11`, `v - 11` otherwise. -/
def remap (v : Int) : Int := if v ≤ 11 then v - 12 else v - 11

/-- The components of a bin: the indices `j < 332` whose radius is `c`. -/
def members (r : List Int) (c : Int) : List Nat :=
  (List.range 332).filter (fun j => decide (r[j]? = some c))

/-- The ratios of the components of the bin of radius `c`. -/
def binRatios (r : List Int) (ratio : List ℚ) (c : Int) : List ℚ :=
  (members r c).map (fun j => ratio.getD j 0)

/-- Arithmetic mean of a list of values. -/
def mean (l : List ℚ) : ℚ := l.sum / (l.length : ℚ)

/-- Population variance of a list of values: the sum of the squared deviations from the mean,
divided by the number of values.  The population standard deviation is its square root. -/
def popVariance (l : List ℚ) : ℚ :=
  (l.map (fun q => (q - mean l) ^ 2)).sum / (l.length : ℚ)

/-- The standard stable sort by run identifier that the specification proposes in place of the
bubble sort: insertion sort, which never moves a run past one with the same identifier. -/
def stableSort (collection : List Run) : List Run :=
  collection.insertionSort (fun a b => a.runNumberInt ≤ b.runNumberInt)

/-- The integer five decimal digits denote in base 10. -/
def fiveDigits (d0 d1 d2 d3 d4 : Char) : Int :=
  (digitVal d0 : Int) * 10000 + (digitVal d1 : Int) * 1000 + (digitVal d2 : Int) * 100
    + (digitVal d3 : Int) * 10 + (digitVal d4 : Int)

/-! ## Sample data -/

/-- Component numbers of a table of 332 crystals: the crystals of the 22 x 22 grid whose squared
radius lies between 20 and 130, listed by ascending radius. -/
def annulus : List Int :=
  [163, 166, 205, 212, 271, 278, 317, 320, 162, 167, 183, 190, 293, 300, 316, 321, 142, 143, 226,
   235, 248, 257, 340, 341, 141, 144, 204, 213, 270, 279, 339, 342, 161, 168, 315, 322, 140, 145,
   182, 191, 292, 301, 338, 343, 120, 121, 225, 236, 247, 258, 362, 363, 119, 122, 203, 214, 269,
   280, 361, 364, 139, 146, 160, 169, 314, 323, 337, 344, 118, 123, 181, 192, 291, 302, 360, 365,
   98, 99, 138, 147, 224, 237, 246, 259, 336, 345, 384, 385, 117, 124, 159, 170, 313, 324, 359,
   366, 97, 100, 202, 215, 268, 281, 383, 386, 96, 101, 180, 193, 290, 303, 382, 387, 116, 125,
   137, 148, 335, 346, 358, 367, 76, 77, 95, 102, 158, 171, 223, 238, 245, 260, 312, 325, 381,
   388, 406, 407, 75, 78, 201, 216, 267, 282, 405, 408, 115, 126, 357, 368, 74, 79, 179, 194,
   289, 304, 404, 409, 94, 103, 136, 149, 334, 347, 380, 389, 73, 80, 157, 172, 311, 326, 403,
   410, 54, 55, 222, 239, 244, 261, 428, 429, 53, 56, 93, 104, 114, 127, 200, 217, 266, 283, 356,
   369, 379, 390, 427, 430, 72, 81, 135, 150, 333, 348, 402, 411, 52, 57, 178, 195, 288, 305,
   426, 431, 51, 58, 156, 173, 310, 327, 425, 432, 92, 105, 378, 391, 71, 82, 113, 128, 355, 370,
   401, 412, 32, 33, 221, 240, 243, 262, 450, 451, 31, 34, 199, 218, 265, 284, 449, 452, 50, 59,
   134, 151, 332, 349, 424, 433, 30, 35, 177, 196, 287, 306, 448, 453, 70, 83, 91, 106, 377, 392,
   400, 413, 29, 36, 155, 174, 309, 328, 447, 454, 49, 60, 112, 129, 354, 371, 423, 434, 10, 11,
   220, 241, 242, 263, 472, 473, 9, 12, 28, 37, 133, 152, 198, 219, 264, 285, 331, 350, 446, 455,
   471, 474, 69, 84, 399, 414, 8, 13, 48, 61, 90, 107, 176, 197, 286, 307, 376, 393, 422, 435,
   470, 475]

/-- The component numbers 0, 1, ..., 331 in file order. -/
def firstIds : List Int := (List.range 332).map Int.ofNat

/-- The component number 0 in each of the 332 rows: a table with one radius only. -/
def zeroIds : List Int := List.replicate 332 0

/-- A table with the given component numbers and the same amplitude mean in every row. -/
def constRows (ids : List Int) (amp : ℚ) : List Row :=
  ids.map (fun c => { component := c, ampMean := amp })

/-- The annulus table with amplitude mean 1 in every row but the last, where it is 2. -/
def stepRows : List Row :=
  constRows (annulus.take 331) 1 ++ [{ component := 475, ampMean := 2 }]

/-- The run an `Except` value holds, a blank run when it holds a fault. -/
def runOf (res : Except Fault Run) : Run :=
  match res with
  | .ok run => run
  | .error _ => Run.blank [] 0

/-- The run the constructor builds from a file that was opened, a blank run on a fault. -/
def sampleRun (filename : List Char) (rows : List Row) : Run :=
  runOf (Run.construct filename (some rows))

/-- A directory path, with the final `/`. -/
def samplePath : List Char := "data/".data

/-- File of run 1, as listed in the directory. -/
def file1 : List Char := "ftCalLed_-00001_.txt".data

/-- File of run 2, as listed in the directory. -/
def file2 : List Char := "ftCalLed_-00002_.txt".data

/-- Full name of the file of run 1. -/
def name1 : List Char := samplePath ++ file1

/-- Full name of the file of run 2. -/
def name2 : List Char := samplePath ++ file2

/-- A directory in which only the file of run 2 can be opened; it holds the annulus table with
amplitude 1. -/
def sampleSource (filename : List Char) : Option (List Row) :=
  if filename = name2 then some (constRows annulus 1) else none

/-- A file whose name has letters where the run number should be. -/
def fileBad : List Char := "ftCalLed_-abcde_.txt".data

/-- A directory in which every file can be opened and holds the annulus table with amplitude 1. -/
def openSource (_ : List Char) : Option (List Row) := some (constRows annulus 1)

/-- The object the constructor leaves for the file of run 1 when it cannot be opened. -/
def blank1 : Run := Run.blank ['0', '0', '0', '0', '1'] 1

/-- The run of the table `stepRows` (file of run 2) with its ratios set against the annulus
table with amplitude 1 (file of run 1). -/
def stepRun : Run :=
  runOf (setRatio (sampleRun name2 stepRows) (sampleRun name1 (constRows annulus 1)))


/-! ## Groups of a block of equal radii -/

/-- Sum of the squared deviations of the values of `l` from `avg`, as `getError` accumulates it. -/
def deviations (l : List ℚ) (avg : ℚ) : ℚ := (l.map (fun q => (q - avg) * (q - avg))).sum

/-- The group of the ratios `g` when it is closed by the `else` branch: the deviations of all
its values enter `std`. -/
def fullGroup (g : List ℚ) : Group :=
  { count := g.length
    avg := g.sum / (g.length : ℚ)
    std := deviations g (g.sum / (g.length : ℚ)) / (g.length : ℚ) }

/-- The group of the ratios `g` when it is closed by the branch `last == 331`: the deviation of
its last value does not enter `std`. -/
def lastGroup (g : List ℚ) : Group :=
  { count := g.length
    avg := g.sum / (g.length : ℚ)
    std := deviations g.dropLast (g.sum / (g.length : ℚ)) / (g.length : ℚ) }

/-- The entries of `rOrdered` that belong to a block: the radius, once per ratio. -/
def blockRadii (b : Int × List ℚ) : List Int := List.replicate b.2.length b.1

/-- The groups closed for a sequence of blocks; `atEnd` tells that `rOrdered` ends with the
last block, which is then closed by the branch `last == 331`. -/
def closures : List (Int × List ℚ) → Bool → List Group
  | [], _ => []
  | b :: t, atEnd =>
    (if t = [] ∧ atEnd = true then lastGroup b.2 else fullGroup b.2) :: closures t atEnd

/-- The blocks `setParameters` walks through: the first 39 distinct radii, each with the ratios
of its components. -/
def blocks (r : List Int) (ratio : List ℚ) : List (Int × List ℚ) :=
  ((rSorted r).take 39).map (fun c => (c, binRatios r ratio c))

/-- The entries of `rOrdered` after the blocks of the first 39 distinct radii. -/
def beyond (r : List Int) : List Int :=
  ((rSorted r).drop 39).flatMap (fun c => List.replicate ((sort r).count c) c)

/-- A run on which `setParameters` has not been called yet, with its geometry derived and its
ratios set. -/
structure Ready (run : Run) : Prop where
  r_len : run.r.length = num
  ratio_len : run.ratio.length = num
  rOrdered : run.rOrdered = sort run.r
  rOrderedCut : run.rOrderedCut = (rSorted run.r).take 39
  orderedRatios : run.orderedRatios = []
  orderedRatioArray : run.orderedRatioArray = []
  average : run.average = []
  error : run.error = []

/-- What the constructor leaves in the object when the file was opened. -/
structure Built (rows : List Row) (run : Run) : Prop where
  rows_len : num ≤ rows.length
  component : run.component = (rows.take num).map Row.component
  ampMean : run.ampMean = (rows.take num).map Row.ampMean
  x : run.x = run.component.map gridX
  y : run.y = run.component.map gridY
  r : run.r = run.component.map radius
  rOrdered : run.rOrdered = sort run.r
  rOrderedCut : run.rOrderedCut = (rSorted run.r).take 39
  ratio : run.ratio = []
  orderedRatios : run.orderedRatios = []
  orderedRatioArray : run.orderedRatioArray = []
  average : run.average = []
  error : run.error = []

/-! # Properties -/

/-! ## The constructor -/

theorem construct_built {filename : List Char} {rows : List Row} {run : Run}
    (h : Run.construct filename (some rows) = .ok run) : Built rows run := by
  unfold Run.construct at h
  simp only [bind, Except.bind, pure, Except.pure] at h
  split at h
  · cases h
  · split at h
    · cases h
    · rename_i hlen
      injection h with h
      subst h
      refine ⟨?_, rfl, rfl, rfl, rfl, rfl, rfl, rfl, rfl, rfl, rfl, rfl, rfl⟩
      simp only [List.length_take, not_lt] at hlen
      omega

theorem Built.component_getElem? {rows : List Row} {run : Run} (hb : Built rows run)
    {i : Nat} (hi : i < 332) : run.component[i]? = (rows[i]?).map Row.component := by
  rw [hb.component, List.getElem?_map, List.getElem?_take_of_lt (by simpa [num] using hi)]

/-- C1. For an integer component number `c` with `0 <= c <= 331` in row `i` of the table, the
constructor sets `y[i] = remap(floor(c/22) + 1)`, `x[i] = remap(c + 1 - 22*floor(c/22))` and
`r[i]` to the root of `x[i]*x[i] + y[i]*y[i]`; for `c = 0` these are `-11`, `-11` and the
root of 242. -/
theorem construct_geometry (filename : List Char) (rows : List Row) (run : Run) (i : Nat) (c : Int)
    (h : Run.construct filename (some rows) = .ok run) (hi : i < 332)
    (hc : (rows[i]?).map Row.component = some c) (h0 : 0 ≤ c) (h1 : c ≤ 331) :
    run.y[i]? = some (remap (c / 22 + 1)) ∧
    run.x[i]? = some (remap (c + 1 - 22 * (c / 22))) ∧
    run.r[i]? = some (remap (c + 1 - 22 * (c / 22)) * remap (c + 1 - 22 * (c / 22))
      + remap (c / 22 + 1) * remap (c / 22 + 1)) ∧
    (c = 0 → run.x[i]? = some (-11) ∧ run.y[i]? = some (-11) ∧ run.r[i]? = some 242) := by
  have hb := construct_built h
  have hci : run.component[i]? = some c := by rw [hb.component_getElem? hi, hc]
  have hdiv : Int.tdiv c 22 = c / 22 := Int.tdiv_eq_ediv h0 (by decide)
  have e : c + 1 - ((c / 22 + 1) - 1) * 22 = c + 1 - 22 * (c / 22) := by ring
  have hy : run.y[i]? = some (remap (c / 22 + 1)) := by
    rw [hb.y, List.getElem?_map, hci]
    simp [gridY, shift, remap, hdiv]
  have hx : run.x[i]? = some (remap (c + 1 - 22 * (c / 22))) := by
    rw [hb.x, List.getElem?_map, hci]
    simp only [Option.map_some', gridX, shift, remap, hdiv, e]
  have hr : run.r[i]? = some (remap (c + 1 - 22 * (c / 22)) * remap (c + 1 - 22 * (c / 22))
      + remap (c / 22 + 1) * remap (c / 22 + 1)) := by
    rw [hb.r, List.getElem?_map, hci]
    simp only [Option.map_some', radius, gridX, gridY, shift, remap, hdiv, e]
  refine ⟨hy, hx, hr, ?_⟩
  intro hc0
  subst hc0
  rw [hx, hy, hr]
  decide


/-! ## Sorting and the removal of adjacent duplicates -/

theorem sort_sorted (l : List Int) : (sort l).Sorted (· ≤ ·) :=
  List.sorted_insertionSort (· ≤ ·) l

theorem sort_perm (l : List Int) : (sort l).Perm l :=
  List.perm_insertionSort (· ≤ ·) l

theorem mem_sort {l : List Int} {v : Int} : v ∈ sort l ↔ v ∈ l :=
  (sort_perm l).mem_iff

theorem length_sort (l : List Int) : (sort l).length = l.length :=
  (sort_perm l).length_eq

theorem unique_cons_head (a : Int) (l : List Int) : ∃ u, unique (a :: l) = a :: u := by
  induction l generalizing a with
  | nil => exact ⟨[], rfl⟩
  | cons b t ih =>
    by_cases hab : a = b
    · obtain ⟨u, hu⟩ := ih b
      exact ⟨u, by rw [unique, if_pos hab, hu, hab]⟩
    · exact ⟨unique (b :: t), by rw [unique, if_neg hab]⟩

theorem mem_unique {l : List Int} {v : Int} : v ∈ unique l ↔ v ∈ l := by
  induction l with
  | nil => simp [unique]
  | cons a t ih =>
    cases t with
    | nil => simp [unique]
    | cons b t =>
      by_cases hab : a = b
      · rw [unique, if_pos hab, ih, hab]
        simp
      · rw [unique, if_neg hab, List.mem_cons, ih]
        simp

theorem unique_sorted {l : List Int} (h : l.Sorted (· ≤ ·)) : (unique l).Sorted (· < ·) := by
  induction l with
  | nil => simp [unique]
  | cons a t ih =>
    cases t with
    | nil => simp [unique]
    | cons b t =>
      have ht : (b :: t).Sorted (· ≤ ·) := h.of_cons
      by_cases hab : a = b
      · rw [unique, if_pos hab]
        exact ih ht
      · rw [unique, if_neg hab]
        refine List.sorted_cons.mpr ⟨?_, ih ht⟩
        intro v hv
        have hv' : v ∈ b :: t := mem_unique.mp hv
        have hle : a ≤ v := List.rel_of_sorted_cons h v hv'
        have hbv : b ≤ v := by
          rcases List.mem_cons.mp hv' with hvb | hvt
          · exact hvb ▸ le_refl _
          · exact List.rel_of_sorted_cons ht v hvt
        have hab' : a ≤ b := List.rel_of_sorted_cons h b (List.mem_cons_self _ _)
        omega

theorem rSorted_sorted (r : List Int) : (rSorted r).Sorted (· < ·) :=
  unique_sorted (sort_sorted r)

theorem mem_rSorted {r : List Int} {v : Int} : v ∈ rSorted r ↔ v ∈ r := by
  rw [rSorted, mem_unique, mem_sort]

theorem rSorted_nodup (r : List Int) : (rSorted r).Nodup :=
  (rSorted_sorted r).nodup

theorem Built.length_component {rows : List Row} {run : Run} (hb : Built rows run) :
    run.component.length = num := by
  rw [hb.component, List.length_map, List.length_take]
  exact Nat.min_eq_left hb.rows_len

theorem Built.length_r {rows : List Row} {run : Run} (hb : Built rows run) :
    run.r.length = num := by
  rw [hb.r, List.length_map, hb.length_component]

/-- C4. The distinct-radius sequence the constructor builds from the radii of a run (copy, sort
ascending, remove adjacent equal values) is strictly ascending, has no duplicates, and holds a
value exactly when it is the radius of one of the 332 components of the run. -/
theorem construct_rSorted_strict (filename : List Char) (rows : List Row) (run : Run)
    (h : Run.construct filename (some rows) = .ok run) :
    run.rOrdered = sort run.r ∧ run.rOrderedCut = (rSorted run.r).take 39 ∧
    rSorted run.r = unique run.rOrdered ∧
    (rSorted run.r).Sorted (· < ·) ∧ (rSorted run.r).Nodup ∧
    ∀ v : Int, v ∈ rSorted run.r ↔ ∃ i, i < 332 ∧ run.r[i]? = some v := by
  have hb := construct_built h
  refine ⟨hb.rOrdered, hb.rOrderedCut, by rw [hb.rOrdered, rSorted], rSorted_sorted _,
    rSorted_nodup _, ?_⟩
  intro v
  rw [mem_rSorted, List.mem_iff_getElem?]
  constructor
  · rintro ⟨i, hi⟩
    refine ⟨i, ?_, hi⟩
    have hlt := (List.getElem?_eq_some_iff.mp hi).1
    rw [hb.length_r] at hlt
    exact hlt
  · rintro ⟨i, _, hi⟩
    exact ⟨i, hi⟩

/-! ## Array loops -/

theorem read_eq_ok {α : Type} {arr : List α} {i : Nat} {v : α} (h : arr[i]? = some v) :
    read arr i = .ok v := by
  simp [read, h]

theorem mapM_ok {α β : Type} (f : α → Except Fault β) (g : α → β) (l : List α)
    (h : ∀ a ∈ l, f a = .ok (g a)) : l.mapM f = .ok (l.map g) := by
  induction l with
  | nil => rfl
  | cons a t ih =>
    rw [List.mapM_cons, h a (List.mem_cons_self _ _), ih (fun b hb => h b (List.mem_cons_of_mem _ hb))]
    rfl

theorem tabulate_ok {α : Type} (n : Nat) (f : Nat → Except Fault α) (g : Nat → α)
    (h : ∀ i, i < n → f i = .ok (g i)) : tabulate n f = .ok ((List.range n).map g) :=
  mapM_ok f g _ (fun i hi => h i (List.mem_range.mp hi))

theorem setRatio_ok {this lowest : Run} (ht : this.ampMean.length = num)
    (hl : lowest.ampMean.length = num) :
    setRatio this lowest = .ok { this with
      ratio := (List.range num).map
        (fun i => this.ampMean.getD i 0 / lowest.ampMean.getD i 0) } := by
  unfold setRatio
  rw [tabulate_ok num _ (fun i => this.ampMean.getD i 0 / lowest.ampMean.getD i 0)]
  · rfl
  · intro i hi
    have h1 : this.ampMean[i]? = some (this.ampMean.getD i 0) := by
      rw [List.getD_eq_getElem?_getD, List.getElem?_eq_getElem (by omega)]
      rfl
    have h2 : lowest.ampMean[i]? = some (lowest.ampMean.getD i 0) := by
      rw [List.getD_eq_getElem?_getD, List.getElem?_eq_getElem (by omega)]
      rfl
    rw [read_eq_ok h1, read_eq_ok h2]
    rfl

theorem Built.length_ampMean {rows : List Row} {run : Run} (hb : Built rows run) :
    run.ampMean.length = num := by
  rw [hb.ampMean, List.length_map, List.length_take]
  exact Nat.min_eq_left hb.rows_len

/-- C6. For a run and a baseline run whose files were read, `setRatio` sets, for every index
`i` in `0..331`, `ratio[i]` to the run's `ampMean[i]` divided by the baseline's `ampMean[i]`;
own amplitude 150 over baseline amplitude 100 at index 5 gives `ratio[5] = 3/2`. -/
theorem setRatio_entries (f g : List Char) (rows base : List Row) (run lowest : Run)
    (hrun : Run.construct f (some rows) = .ok run)
    (hlow : Run.construct g (some base) = .ok lowest) :
    ∃ run', setRatio run lowest = .ok run' ∧ run'.ratio.length = 332 ∧
      (∀ i a b, i < 332 → run.ampMean[i]? = some a → lowest.ampMean[i]? = some b →
        run'.ratio[i]? = some (a / b)) ∧
      (run.ampMean[5]? = some 150 → lowest.ampMean[5]? = some 100 →
        run'.ratio[5]? = some (3 / 2)) := by
  have h1 := (construct_built hrun).length_ampMean
  have h2 := (construct_built hlow).length_ampMean
  have key : ∀ i a b, i < 332 → run.ampMean[i]? = some a → lowest.ampMean[i]? = some b →
      ((List.range num).map
        (fun i => run.ampMean.getD i 0 / lowest.ampMean.getD i 0))[i]? = some (a / b) := by
    intro i a b hi ha hb
    rw [List.getElem?_map, List.getElem?_range (by simpa [num] using hi)]
    simp [List.getD_eq_getElem?_getD, ha, hb]
  refine ⟨_, setRatio_ok h1 h2, by simp [num], key, ?_⟩
  intro ha hb
  have := key 5 150 100 (by decide) ha hb
  rw [this]
  norm_num

/-! ## The baseline -/

theorem foldl_findLowestRun (collection : List Run) (first : Run) :
    (collection.foldl (fun lowest cj => findLowestRun cj lowest) first ∈ first :: collection) ∧
    (collection.foldl (fun lowest cj => findLowestRun cj lowest) first).runNumberInt
      ≤ first.runNumberInt ∧
    ∀ run ∈ collection,
      (collection.foldl (fun lowest cj => findLowestRun cj lowest) first).runNumberInt
        ≤ run.runNumberInt := by
  induction collection generalizing first with
  | nil => simp
  | cons c t ih =>
    obtain ⟨hmem, hle, hall⟩ := ih (findLowestRun c first)
    have hstep : (findLowestRun c first = c ∨ findLowestRun c first = first) ∧
        (findLowestRun c first).runNumberInt ≤ first.runNumberInt ∧
        (findLowestRun c first).runNumberInt ≤ c.runNumberInt := by
      unfold findLowestRun
      split
      · exact ⟨Or.inl rfl, by omega, le_refl _⟩
      · exact ⟨Or.inr rfl, le_refl _, by omega⟩
    rw [List.foldl_cons]
    refine ⟨?_, by omega, ?_⟩
    · rcases List.mem_cons.mp hmem with h | h
      · rcases hstep.1 with h' | h'
        · rw [h, h']; simp
        · rw [h, h']; simp
      · exact List.mem_cons_of_mem _ (List.mem_cons_of_mem _ h)
    · intro run hrun
      rcases List.mem_cons.mp hrun with h | h
      · rw [h]; omega
      · exact hall run h

theorem foldl_findLowestRun_fixed (collection : List Run) (first : Run)
    (h : ∀ run ∈ collection, first.runNumberInt ≤ run.runNumberInt) :
    collection.foldl (fun lowest cj => findLowestRun cj lowest) first = first := by
  induction collection with
  | nil => rfl
  | cons c t ih =>
    have hc : findLowestRun c first = first := by
      unfold findLowestRun
      have := h c (List.mem_cons_self _ _)
      rw [if_neg (by omega)]
    rw [List.foldl_cons, hc]
    exact ih (fun run hrun => h run (List.mem_cons_of_mem _ hrun))

theorem lowestRun_mem_min (collection : List Run) (hne : collection ≠ []) :
    ∃ lowest, lowestRun collection = some lowest ∧ lowest ∈ collection ∧
      ∀ run ∈ collection, lowest.runNumberInt ≤ run.runNumberInt := by
  cases collection with
  | nil => exact absurd rfl hne
  | cons first t =>
    obtain ⟨hmem, _, hall⟩ := foldl_findLowestRun (first :: t) first
    have hmem' : (first :: t).foldl (fun low cj => findLowestRun cj low) first ∈ first :: t := by
      rcases List.mem_cons.mp hmem with h | h
      · rw [h]; exact List.mem_cons_self _ _
      · exact h
    exact ⟨_, rfl, hmem', hall⟩

/-- C7. For a non-empty collection, the baseline obtained by folding `findLowestRun` over the
collection from its first element is a run of the collection, its identifier is at most the
identifier of every run of the collection, and selecting again (from the first element, or from
the baseline itself) returns the same run. -/
theorem lowestRun_minimal (collection : List Run) (hne : collection ≠ []) :
    ∃ lowest, lowestRun collection = some lowest ∧ lowest ∈ collection ∧
      (∀ run ∈ collection, lowest.runNumberInt ≤ run.runNumberInt) ∧
      (∀ again, lowestRun collection = some again → again = lowest) ∧
      collection.foldl (fun low cj => findLowestRun cj low) lowest = lowest := by
  obtain ⟨lowest, hlow, hmem, hall⟩ := lowestRun_mem_min collection hne
  refine ⟨lowest, hlow, hmem, hall, ?_, foldl_findLowestRun_fixed _ _ hall⟩
  intro again hagain
  rw [hlow] at hagain
  exact (Option.some.inj hagain).symm

/-- Witness of C7: runs 2 and 1, in this order. -/
theorem lowestRun_minimal_witness :
    [Run.blank ['2'] 2, Run.blank ['1'] 1] ≠ [] ∧
      ∃ lowest, lowestRun [Run.blank ['2'] 2, Run.blank ['1'] 1] = some lowest ∧
        lowest ∈ [Run.blank ['2'] 2, Run.blank ['1'] 1] :=
  ⟨by decide, (lowestRun_minimal [Run.blank ['2'] 2, Run.blank ['1'] 1] (by decide)).elim
    (fun lowest h => ⟨lowest, h.1, h.2.1⟩)⟩


/-! ## The number of distinct radii -/

theorem construct_some_ok {filename : List Char} {rows : List Row} {number : List Char × Int}
    (hp : parseRunNumber filename = .ok number) (hlen : num ≤ rows.length) :
    ∃ run, Run.construct filename (some rows) = .ok run := by
  unfold Run.construct
  rw [hp]
  simp only [bind, Except.bind, pure, Except.pure]
  rw [if_neg (by rw [List.length_take]; omega)]
  exact ⟨_, rfl⟩

theorem firstIds_distinct : (rSorted (firstIds.map radius)).length = 61 := by decide!

theorem annulus_distinct : (rSorted (annulus.map radius)).length = 39 := by decide!

/-! ## The run number -/

theorem find_first (s pat : List Char) (p : Nat) (hp : p ≤ s.length)
    (hat : pat.isPrefixOf (s.drop p) = true)
    (hfirst : ∀ q, q < p → pat.isPrefixOf (s.drop q) = false) : find s pat = some p := by
  induction s generalizing p with
  | nil =>
    have : p = 0 := by simpa using hp
    subst this
    simp only [List.drop_nil] at hat
    simp [find, hat]
  | cons c t ih =>
    cases p with
    | zero =>
      simp only [List.drop_zero] at hat
      simp [find, hat]
    | succ p =>
      have h0 : pat.isPrefixOf (c :: t) = false := by simpa using hfirst 0 (Nat.succ_pos _)
      have := ih p (by simpa using hp) (by simpa using hat)
        (fun q hq => by simpa using hfirst (q + 1) (by omega))
      simp [find, h0, this]

theorem isSpace_of_isDigit {c : Char} (h : isDigit c = true) : isSpace c = false := by
  simp only [isDigit, Bool.and_eq_true, decide_eq_true_eq] at h
  simp only [isSpace, Bool.or_eq_false_iff, decide_eq_false_iff_not]
  refine ⟨⟨⟨⟨⟨?_, ?_⟩, ?_⟩, ?_⟩, ?_⟩, ?_⟩ <;>
  · rintro rfl
    revert h
    decide

theorem digitVal_le {c : Char} (h : isDigit c = true) : digitVal c ≤ 9 := by
  simp only [isDigit, Bool.and_eq_true, decide_eq_true_eq] at h
  unfold digitVal
  omega

theorem stoi_fiveDigits (d0 d1 d2 d3 d4 : Char) (h0 : isDigit d0 = true)
    (h1 : isDigit d1 = true) (h2 : isDigit d2 = true) (h3 : isDigit d3 = true)
    (h4 : isDigit d4 = true) :
    stoi [d0, d1, d2, d3, d4] = .ok (fiveDigits d0 d1 d2 d3 d4) := by
  have hm : d0 ≠ '-' := by
    rintro rfl
    revert h0
    decide
  have hp : d0 ≠ '+' := by
    rintro rfl
    revert h0
    decide
  have b0 := digitVal_le h0
  have b1 := digitVal_le h1
  have b2 := digitVal_le h2
  have b3 := digitVal_le h3
  have b4 := digitVal_le h4
  have hdw : List.dropWhile isSpace [d0, d1, d2, d3, d4] = [d0, d1, d2, d3, d4] := by
    rw [List.dropWhile_cons_of_neg]
    simp [isSpace_of_isDigit h0]
  have htw : List.takeWhile isDigit [d0, d1, d2, d3, d4] = [d0, d1, d2, d3, d4] := by
    simp [List.takeWhile_cons, h0, h1, h2, h3, h4]
  have hsg : readSign [d0, d1, d2, d3, d4] = (false, [d0, d1, d2, d3, d4]) := by
    unfold readSign
    split
    · rename_i heq
      exact absurd (List.cons.inj heq).1 hm
    · rename_i heq
      exact absurd (List.cons.inj heq).1 hp
    · rfl
  unfold stoi
  simp only [hdw, hsg, htw, List.foldl_cons, List.foldl_nil]
  rw [if_neg (by simp), if_neg (by simp; omega)]
  simp only [fiveDigits, Bool.false_eq_true, ↓reduceIte]
  congr 1
  push_cast
  ring

theorem construct_number {filename : List Char} {source : Option (List Row)} {run : Run}
    (h : Run.construct filename source = .ok run) :
    parseRunNumber filename = .ok (run.runNumber, run.runNumberInt) := by
  unfold Run.construct at h
  simp only [bind, Except.bind, pure, Except.pure] at h
  split at h
  · cases h
  · rename_i number hp
    rw [hp]
    cases source with
    | none =>
      injection h with h
      subst h
      rfl
    | some rows =>
      simp only at h
      split at h
      · cases h
      · injection h with h
        subst h
        rfl

theorem construct_none_ok {filename : List Char} {number : List Char × Int}
    (hp : parseRunNumber filename = .ok number) :
    Run.construct filename none = .ok (Run.blank number.1 number.2) := by
  unfold Run.construct
  rw [hp]
  rfl

theorem parseRunNumber_digits (pre post : List Char) (d0 d1 d2 d3 d4 : Char)
    (h0 : isDigit d0 = true) (h1 : isDigit d1 = true) (h2 : isDigit d2 = true)
    (h3 : isDigit d3 = true) (h4 : isDigit d4 = true)
    (hfirst : ∀ q, q < pre.length →
      ¬ marker <+: (pre ++ marker ++ [d0, d1, d2, d3, d4] ++ post).drop q) :
    parseRunNumber (pre ++ marker ++ [d0, d1, d2, d3, d4] ++ post)
      = .ok ([d0, d1, d2, d3, d4], fiveDigits d0 d1 d2 d3 d4) := by
  have hfind : find (pre ++ marker ++ [d0, d1, d2, d3, d4] ++ post) marker
      = some pre.length := by
    apply find_first
    · simp only [List.length_append]
      omega
    · rw [List.isPrefixOf_iff_prefix]
      simp only [List.append_assoc, List.drop_left]
      exact List.prefix_append _ _
    · intro q hq
      have := hfirst q hq
      rw [← List.isPrefixOf_iff_prefix] at this
      exact Bool.eq_false_iff.mpr this
  unfold parseRunNumber
  simp only [hfind]
  have hpos : ((pre.length : Int) + 10).toNat = pre.length + 10 := by omega
  have hsub : substr (pre ++ marker ++ [d0, d1, d2, d3, d4] ++ post) (pre.length + 10) 5
      = .ok [d0, d1, d2, d3, d4] := by
    unfold substr
    rw [if_neg (by simp [marker])]
    have : (pre ++ marker ++ [d0, d1, d2, d3, d4] ++ post)
        = (pre ++ marker) ++ ([d0, d1, d2, d3, d4] ++ post) := by simp
    rw [this, List.drop_left' (by simp [marker])]
    rfl
  rw [hpos, hsub]
  simp only [bind, Except.bind, stoi_fiveDigits d0 d1 d2 d3 d4 h0 h1 h2 h3 h4]
  rfl

/-- C10. When the first occurrence of the marker `"ftCalLed_-"` in the file name is immediately
followed by five decimal digits, lines 84-86 of the constructor yield these five characters as
`runNumber` and the integer they denote in base 10 as `runNumberInt`; every run the
constructor returns carries them, and the constructor returns when the file is not opened or
is opened with 332 rows. -/
theorem construct_runNumber (pre post : List Char) (d0 d1 d2 d3 d4 : Char)
    (source : Option (List Row))
    (h0 : isDigit d0 = true) (h1 : isDigit d1 = true) (h2 : isDigit d2 = true)
    (h3 : isDigit d3 = true) (h4 : isDigit d4 = true)
    (hfirst : ∀ q, q < pre.length →
      ¬ marker <+: (pre ++ marker ++ [d0, d1, d2, d3, d4] ++ post).drop q) :
    parseRunNumber (pre ++ marker ++ [d0, d1, d2, d3, d4] ++ post)
      = .ok ([d0, d1, d2, d3, d4], fiveDigits d0 d1 d2 d3 d4) ∧
    (∀ run, Run.construct (pre ++ marker ++ [d0, d1, d2, d3, d4] ++ post) source = .ok run →
      run.runNumberInt = fiveDigits d0 d1 d2 d3 d4 ∧ run.runNumber = [d0, d1, d2, d3, d4]) ∧
    ((∀ rows, source = some rows → 332 ≤ rows.length) →
      ∃ run, Run.construct (pre ++ marker ++ [d0, d1, d2, d3, d4] ++ post) source = .ok run ∧
        run.runNumberInt = fiveDigits d0 d1 d2 d3 d4 ∧ run.runNumber = [d0, d1, d2, d3, d4]) := by
  have hp := parseRunNumber_digits pre post d0 d1 d2 d3 d4 h0 h1 h2 h3 h4 hfirst
  have hval : ∀ run,
      Run.construct (pre ++ marker ++ [d0, d1, d2, d3, d4] ++ post) source = .ok run →
      run.runNumberInt = fiveDigits d0 d1 d2 d3 d4 ∧ run.runNumber = [d0, d1, d2, d3, d4] := by
    intro run hrun
    have hn := construct_number hrun
    rw [hp] at hn
    injection hn with hn
    injection hn with hs hi
    exact ⟨hi.symm, hs.symm⟩
  refine ⟨hp, hval, ?_⟩
  intro hsrc
  have hex : ∃ run, Run.construct (pre ++ marker ++ [d0, d1, d2, d3, d4] ++ post) source
      = .ok run := by
    cases source with
    | none => exact ⟨_, construct_none_ok hp⟩
    | some rows => exact construct_some_ok hp (hsrc rows rfl)
  obtain ⟨run, hrun⟩ := hex
  exact ⟨run, hrun, hval run hrun⟩

/-- Witness of C10: the file name `data/ftCalLed_-00002_.txt`, the file not opened. -/
theorem construct_runNumber_witness :
    (∀ q, q < ['d', 'a', 't', 'a', '/'].length →
      ¬ marker <+: (['d', 'a', 't', 'a', '/'] ++ marker ++ ['0', '0', '0', '0', '2']
        ++ ['_', '.', 't', 'x', 't']).drop q) ∧
      ∃ run, Run.construct (['d', 'a', 't', 'a', '/'] ++ marker ++ ['0', '0', '0', '0', '2']
        ++ ['_', '.', 't', 'x', 't']) none = .ok run ∧ run.runNumberInt = 2 :=
  ⟨by decide, ((construct_runNumber ['d', 'a', 't', 'a', '/'] ['_', '.', 't', 'x', 't']
      '0' '0' '0' '0' '2' none (by decide) (by decide) (by decide) (by decide) (by decide)
      (by decide)).2.2 (fun _ h => by cases h)).elim
    (fun run h => ⟨run, h.1, by rw [h.2.1]; decide⟩)⟩

/-! ## The table of the component numbers 0 to 331 -/

theorem parse_name2 : parseRunNumber name2 = .ok (['0', '0', '0', '0', '2'], 2) := by decide!

theorem parse_name1 : parseRunNumber name1 = .ok (['0', '0', '0', '0', '1'], 1) := by decide!

theorem firstIds_component {filename : List Char} {amp : ℚ} {run : Run}
    (h : Run.construct filename (some (constRows firstIds amp)) = .ok run) :
    run.component = firstIds := by
  rw [(construct_built h).component, constRows, List.map_take, List.map_map]
  have : (Row.component ∘ fun c => ({ component := c, ampMean := amp } : Row)) = id := rfl
  rw [this, List.map_id]
  exact List.take_of_length_le (by decide!)

/-- C8, as stated, fails: the table with the component numbers 0, 1, ..., 331 is accepted by the
constructor and its distinct-radius sequence does not have 39 values. -/
theorem firstIds_not_39 :
    ∃ run, Run.construct name2 (some (constRows firstIds 1)) = .ok run ∧
      run.component = firstIds ∧ (rSorted run.r).length ≠ 39 := by
  have hex : ∃ run, Run.construct name2 (some (constRows firstIds 1)) = .ok run :=
    construct_some_ok parse_name2 (by decide!)
  obtain ⟨run, h⟩ := hex
  have hc := firstIds_component h
  refine ⟨run, h, hc, ?_⟩
  rw [(construct_built h).r, hc, firstIds_distinct]
  decide

/-- C8, amended. For a run whose 332 records carry the component numbers 0, 1, ..., 331, the
distinct-radius sequence derived by the constructor has exactly 61 values; it does not fit the
39-entry array `rOrderedCut`, which receives its first 39 values. -/
theorem construct_firstIds (filename : List Char) (rows : List Row) (run : Run)
    (h : Run.construct filename (some rows) = .ok run) (hc : run.component = firstIds) :
    (rSorted run.r).length = 61 ∧ ¬ (rSorted run.r).length ≤ 39 ∧
      run.rOrderedCut = (rSorted run.r).take 39 ∧ run.rOrderedCut.length = 39 := by
  have hb := construct_built h
  have h61 : (rSorted run.r).length = 61 := by rw [hb.r, hc, firstIds_distinct]
  refine ⟨h61, by omega, hb.rOrderedCut, ?_⟩
  rw [hb.rOrderedCut, List.length_take, h61]
  rfl

/-- Witness of the amended C8: the table of the component numbers 0 to 331 with amplitude 1. -/
theorem construct_firstIds_witness :
    ∃ run, Run.construct name1 (some (constRows firstIds 1)) = .ok run ∧
      run.component = firstIds ∧ (rSorted run.r).length = 61 := by
  have hex : ∃ run, Run.construct name1 (some (constRows firstIds 1)) = .ok run :=
    construct_some_ok parse_name1 (by decide!)
  obtain ⟨run, h⟩ := hex
  exact ⟨run, h, firstIds_component h,
    (construct_firstIds name1 (constRows firstIds 1) run h (firstIds_component h)).1⟩

/-! ## The collection -/

theorem mapM_ok_inv {α β : Type} (f : α → Except Fault β) :
    ∀ (l : List α) (l' : List β), l.mapM f = .ok l' →
      l'.length = l.length ∧
      ∀ (j : Nat) (a : α), l[j]? = some a → ∃ b, l'[j]? = some b ∧ f a = .ok b := by
  intro l
  induction l with
  | nil =>
    intro l' h
    have : l' = [] := by
      simp only [List.mapM_nil, pure, Except.pure] at h
      injection h with h
      exact h.symm
    subst this
    simp
  | cons a t ih =>
    intro l' h
    rw [List.mapM_cons] at h
    cases hfa : f a with
    | error e =>
      rw [hfa] at h
      cases h
    | ok b =>
      cases ht : t.mapM f with
      | error e =>
        rw [hfa, ht] at h
        cases h
      | ok t' =>
        rw [hfa, ht] at h
        have hl : l' = b :: t' := by
          simp only [bind, Except.bind, pure, Except.pure] at h
          injection h with h
          exact h.symm
        subst hl
        obtain ⟨hlen, hall⟩ := ih t' ht
        refine ⟨by simp [hlen], ?_⟩
        intro j x hj
        cases j with
        | zero =>
          simp only [List.getElem?_cons_zero, Option.some.injEq] at hj
          subst hj
          exact ⟨b, by simp, hfa⟩
        | succ j =>
          simp only [List.getElem?_cons_succ] at hj
          obtain ⟨y, hy, hfy⟩ := hall j x hj
          exact ⟨y, by simpa using hy, hfy⟩

theorem bubbleFrom_perm (a : Run) (t : List Run) : (bubbleFrom a t).1.Perm (a :: t) := by
  induction t generalizing a with
  | nil => exact List.Perm.refl _
  | cons b t ih =>
    unfold bubbleFrom
    split
    · exact ((ih a).cons b).trans (List.Perm.swap a b t)
    · exact (ih b).cons a

theorem bubblePass_perm (l : List Run) : (bubblePass l).1.Perm l := by
  cases l with
  | nil => exact List.Perm.refl _
  | cons a t => exact bubbleFrom_perm a t

theorem orderLoop_perm (i fuel spot : Nat) (flag : Bool) (l : List Run) :
    (orderLoop i fuel spot flag l).Perm l := by
  induction fuel generalizing spot flag l with
  | zero => exact List.Perm.refl _
  | succ fuel ih =>
    unfold orderLoop
    split
    · exact (ih _ _ _).trans (bubblePass_perm l)
    · exact List.Perm.refl _

theorem orderRuns_perm (l : List Run) : (orderRuns l).Perm l :=
  orderLoop_perm _ _ _ _ _

theorem sample_load :
    loadCollection samplePath [file1, file2] sampleSource
      = .ok [blank1, sampleRun name2 (constRows annulus 1)] := by decide!

/-- C9, as stated, fails: with two files of which the first cannot be opened, the run of that
file is in the collection that is ordered, it is chosen as baseline, and `setRatio` is applied
to it, reading its unwritten table. -/
theorem unopened_run_not_excluded :
    sampleSource name1 = none ∧
    loadCollection samplePath [file1, file2] sampleSource
      = .ok [blank1, sampleRun name2 (constRows annulus 1)] ∧
    blank1 ∈ orderRuns [blank1, sampleRun name2 (constRows annulus 1)] ∧
    lowestRun (orderRuns [blank1, sampleRun name2 (constRows annulus 1)]) = some blank1 ∧
    setRatio blank1 blank1 = .error .indeterminate ∧
    LEDanalysis samplePath [file1, file2] sampleSource = .error .indeterminate := by
  refine ⟨by decide!, sample_load, by decide!, by decide!, by decide!, by decide!⟩

/-- C9, amended. If the file of a run cannot be opened, the constructor leaves the table
unwritten but the run keeps its identifier and stays in the collection: it is in the ordered
collection, and it is the baseline when its identifier is below that of every other run. -/
theorem unopened_run_kept (path : List Char) (files : List (List Char))
    (source : List Char → Option (List Row)) (collection : List Run) (j : Nat) (f : List Char)
    (hload : loadCollection path files source = .ok collection)
    (hj : files[j]? = some f) (hnone : source (path ++ f) = none) :
    ∃ run, collection[j]? = some run ∧
      parseRunNumber (path ++ f) = .ok (run.runNumber, run.runNumberInt) ∧
      run.ampMean = [] ∧ run.r = [] ∧ run ∈ orderRuns collection ∧
      ((∀ other ∈ collection, other ≠ run → run.runNumberInt < other.runNumberInt) →
        lowestRun (orderRuns collection) = some run) := by
  obtain ⟨_, hall⟩ := mapM_ok_inv _ files collection hload
  obtain ⟨run, hrun, hcons⟩ := hall j f hj
  rw [hnone] at hcons
  have hnum := construct_number hcons
  rw [construct_none_ok hnum] at hcons
  injection hcons with hcons
  have hmem : run ∈ collection := List.mem_iff_getElem?.mpr ⟨j, hrun⟩
  have hmem' : run ∈ orderRuns collection := (orderRuns_perm collection).mem_iff.mpr hmem
  refine ⟨run, hrun, hnum, by rw [← hcons]; rfl, by rw [← hcons]; rfl, hmem', ?_⟩
  intro hlt
  obtain ⟨lowest, hlow, hlmem, hmin⟩ :=
    lowestRun_mem_min (orderRuns collection) (List.ne_nil_of_mem hmem')
  rw [hlow]
  by_cases heq : lowest = run
  · rw [heq]
  · have h1 := hlt lowest ((orderRuns_perm collection).mem_iff.mp hlmem) heq
    have h2 := hmin run hmem'
    omega

/-- Witness of the amended C9: the directory in which the file of run 1 cannot be opened. -/
theorem unopened_run_kept_witness :
    loadCollection samplePath [file1, file2] sampleSource
        = .ok [blank1, sampleRun name2 (constRows annulus 1)] ∧
      [file1, file2][0]? = some file1 ∧ sampleSource (samplePath ++ file1) = none ∧
      ∃ run, [blank1, sampleRun name2 (constRows annulus 1)][0]? = some run ∧
        run ∈ orderRuns [blank1, sampleRun name2 (constRows annulus 1)] :=
  ⟨sample_load, by decide!, by decide!,
    (unopened_run_kept samplePath [file1, file2] sampleSource
      [blank1, sampleRun name2 (constRows annulus 1)] 0 file1
      sample_load (by decide!) (by decide!)).elim
      (fun run h => ⟨run, h.1, h.2.2.2.2.1⟩)⟩

/-! ## `setParameters`, first loop nest -/

theorem getElem?_getD_of_lt {α : Type} (l : List α) (d : α) (n : Nat) (h : n < l.length) :
    l[n]? = some (l.getD n d) := by
  rw [List.getD_eq_getElem?_getD, List.getElem?_eq_getElem h]
  rfl

theorem pushIfMatch_ok (run : Run) (i j : Nat) (c : Int) (acc : List ℚ)
    (hc : run.rOrderedCut[i]? = some c) (hr : run.r.length = num)
    (hq : run.ratio.length = num) (hj : j < num) :
    pushIfMatch run i acc j
      = .ok (acc ++ ([j].filter (fun j => decide (run.r[j]? = some c))).map
          (fun j => run.ratio.getD j 0)) := by
  have hrn := getElem?_getD_of_lt run.r 0 j (by omega)
  have hqn := getElem?_getD_of_lt run.ratio 0 j (by omega)
  unfold pushIfMatch
  simp only [bind, Except.bind, read_eq_ok hc, read_eq_ok hrn, read_eq_ok hqn, pure,
    Except.pure]
  by_cases hcr : c = run.r.getD j 0
  · have hdec : decide (run.r[j]? = some c) = true := by
      rw [hrn, hcr]
      simp
    rw [if_pos hcr]
    simp only [List.filter_cons, hdec, List.filter_nil, if_true, List.map_cons, List.map_nil]
  · have hdec : decide (run.r[j]? = some c) = false := by
      rw [hrn]
      simp only [Option.some.injEq, decide_eq_false_iff_not]
      exact fun h => hcr h.symm
    rw [if_neg hcr]
    simp [List.filter_cons, hdec]

theorem orderRatios_inner (run : Run) (i : Nat) (c : Int)
    (hc : run.rOrderedCut[i]? = some c) (hr : run.r.length = num)
    (hq : run.ratio.length = num) :
    ∀ n, n ≤ num → ∀ acc : List ℚ,
      (List.range n).foldlM (pushIfMatch run i) acc
        = .ok (acc ++ ((List.range n).filter (fun j => decide (run.r[j]? = some c))).map
            (fun j => run.ratio.getD j 0)) := by
  intro n
  induction n with
  | zero => intro _ acc; simp [pure, Except.pure]
  | succ n ih =>
    intro hn acc
    rw [List.range_succ, List.foldlM_append, ih (by omega) acc]
    simp only [bind, Except.bind, List.foldlM_cons, List.foldlM_nil]
    rw [pushIfMatch_ok run i n c _ hc hr hq (by omega)]
    simp only [pure, Except.pure, List.filter_append, List.map_append, List.append_assoc]

theorem orderRatios_ok (run : Run) (hcut : 39 ≤ run.rOrderedCut.length)
    (hr : run.r.length = num) (hq : run.ratio.length = num) :
    orderRatios run = .ok (run.orderedRatios ++
      (run.rOrderedCut.take 39).flatMap (binRatios run.r run.ratio)) := by
  have key : ∀ m, m ≤ 39 → ∀ acc : List ℚ,
      (List.range m).foldlM (fun acc i =>
        (List.range num).foldlM (pushIfMatch run i) acc) acc
        = (.ok (acc ++ (run.rOrderedCut.take m).flatMap (binRatios run.r run.ratio)) :
            Except Fault (List ℚ)) := by
    intro m
    induction m with
    | zero => intro _ acc; simp [pure, Except.pure]
    | succ m ih =>
      intro hm acc
      have hlt : m < run.rOrderedCut.length := by omega
      have hcm : run.rOrderedCut[m]? = some run.rOrderedCut[m] := List.getElem?_eq_getElem hlt
      rw [List.range_succ, List.foldlM_append, ih (by omega) acc]
      simp only [bind, Except.bind, List.foldlM_cons, List.foldlM_nil]
      rw [orderRatios_inner run m _ hcm hr hq num (le_refl _)]
      simp only [pure, Except.pure, List.take_succ, hcm, Option.toList_some,
        List.flatMap_append, List.flatMap_cons, List.flatMap_nil, List.append_nil,
        List.append_assoc]
      rfl
  exact key 39 (le_refl _) run.orderedRatios

/-! ## `setParameters`, second loop nest -/

theorem getElem?_append_mid {α : Type} (pre w post : List α) (i : Nat) (hi : i < w.length) :
    (pre ++ w ++ post)[pre.length + i]? = w[i]? := by
  rw [List.append_assoc, List.getElem?_append_right (by omega)]
  rw [show pre.length + i - pre.length = i by omega, List.getElem?_append_left hi]

theorem addDeviation_ok {O : List ℚ} {avg var q : ℚ} {i : Nat} (hq : O[i]? = some q) :
    addDeviation O avg var i = .ok (var + (q - avg) * (q - avg)) := by
  unfold addDeviation
  simp only [bind, Except.bind, read_eq_ok hq, pure, Except.pure]

theorem foldlM_addDeviation (O : List ℚ) (avg : ℚ) (w : List ℚ) :
    ∀ (preO restO : List ℚ) (init : ℚ), O = preO ++ w ++ restO →
      (List.range' preO.length w.length).foldlM (addDeviation O avg) init
        = .ok (init + deviations w avg) := by
  induction w with
  | nil =>
    intro preO restO init _
    simp [deviations, pure, Except.pure]
  | cons q w ih =>
    intro preO restO init hO
    have hq : O[preO.length]? = some q := by
      have := getElem?_append_mid preO (q :: w) restO 0 (by simp)
      rw [hO]
      simpa using this
    have hO' : O = (preO ++ [q]) ++ w ++ restO := by rw [hO]; simp
    have := ih (preO ++ [q]) restO (init + (q - avg) * (q - avg)) hO'
    simp only [List.length_append, List.length_singleton] at this
    simp only [List.length_cons, List.range'_succ, List.foldlM_cons, bind, Except.bind]
    rw [addDeviation_ok hq]
    simp only []
    rw [this]
    simp only [deviations, List.map_cons, List.sum_cons]
    congr 1
    ring

theorem getError_ok (O : List ℚ) (avg : ℚ) (count : Nat) (w preO restO : List ℚ) (last : Int)
    (hO : O = preO ++ w ++ restO) (hlast : last + 1 - (preO.length : Int) = (w.length : Int)) :
    getError O avg count preO.length last = .ok (deviations w avg / (count : ℚ)) := by
  unfold getError
  rw [hlast, Int.toNat_ofNat, foldlM_addDeviation O avg w preO restO 0 hO]
  simp [bind, Except.bind, pure, Except.pure]

theorem closeGroup_ok (O : List ℚ) (w preO restO : List ℚ) (sum : ℚ) (count start last : Nat)
    (hO : O = preO ++ w ++ restO) (hstart : preO.length = start)
    (hlast : last = start + w.length) :
    closeGroup O sum count start last
      = .ok { count := count, avg := sum / (count : ℚ),
              std := deviations w (sum / (count : ℚ)) / (count : ℚ) } := by
  subst hstart
  unfold closeGroup
  simp only []
  rw [getError_ok O _ count w preO restO ((last : Int) - 1) hO (by subst hlast; push_cast; ring)]
  rfl

theorem binLoop_block (cut S : List Int) (O : List ℚ) (trk start : Nat) (c : Int) (g : List ℚ)
    (preS restS : List Int) (preO restO : List ℚ)
    (hcut : cut[trk]? = some c)
    (hS : S = preS ++ List.replicate g.length c ++ restS)
    (hO : O = preO ++ g ++ restO)
    (hpS : preS.length = start) (hpO : preO.length = start)
    (hlen : S.length = num)
    (hrest : restS.head? ≠ some c) :
    ∀ n j fuel, g.length - j = n → j ≤ g.length → (restS = [] → j < g.length) →
      num - (start + j) ≤ fuel →
      binLoop cut S O trk start fuel (start + j) (g.take j).sum j
        = .ok (if restS = [] then (331, some (lastGroup g))
            else (start + g.length, some (fullGroup g))) := by
  have hnum : num = 332 := rfl
  have hSlen : start + g.length + restS.length = 332 := by
    rw [← hnum, ← hlen, hS, ← hpS]
    simp only [List.length_append, List.length_replicate]
  intro n
  induction n with
  | zero =>
    intro j fuel hn hj hend hfuel
    have hjg : j = g.length := by omega
    have hne : restS ≠ [] := fun h => by
      have := hend h
      omega
    subst hjg
    obtain ⟨ro, rest', hro⟩ := List.exists_cons_of_ne_nil hne
    have hrl : 0 < restS.length := List.length_pos.mpr hne
    have hlast : start + g.length < num := by omega
    have hread : S[start + g.length]? = some ro := by
      rw [hS, hro, ← hpS, List.getElem?_append_right (by simp)]
      simp
    have hne' : c ≠ ro := by
      intro h
      apply hrest
      rw [hro, h]
      rfl
    cases fuel with
    | zero => omega
    | succ fuel =>
      unfold binLoop
      rw [if_pos hlast]
      simp only [bind, Except.bind, read_eq_ok hcut, read_eq_ok hread, if_neg hne']
      rw [closeGroup_ok O g preO restO _ _ start _ hO hpO rfl]
      simp only [pure, Except.pure, if_neg hne, List.take_length, fullGroup]
  | succ n ih =>
    intro j fuel hn hj hend hfuel
    have hjg : j < g.length := by omega
    have hlast : start + j < num := by omega
    have hread : S[start + j]? = some c := by
      rw [hS, ← hpS, getElem?_append_mid preS _ restS j (by simpa using hjg)]
      simp [hjg]
    have hq : O[start + j]? = some g[j] := by
      rw [hO, ← hpO, getElem?_append_mid preO g restO j hjg]
      exact List.getElem?_eq_getElem hjg
    have hsum : (g.take j).sum + g[j] = (g.take (j + 1)).sum := by
      rw [List.take_succ, List.getElem?_eq_getElem hjg]
      simp only [Option.toList_some, List.sum_append, List.sum_cons, List.sum_nil, add_zero]
    cases fuel with
    | zero => omega
    | succ fuel =>
      unfold binLoop
      rw [if_pos hlast]
      simp only [bind, Except.bind, read_eq_ok hcut, read_eq_ok hread, if_true,
        read_eq_ok hq, hsum]
      by_cases h331 : start + j = 331
      · have hgl : g.length = j + 1 := by omega
        have hnil : restS = [] := List.length_eq_zero.mp (by omega)
        have hO' : O = preO ++ g.take j ++ (g.drop j ++ restO) := by
          rw [hO]
          simp only [List.append_assoc]
          rw [← List.append_assoc (g.take j), List.take_append_drop]
        rw [if_pos h331]
        rw [closeGroup_ok O (g.take j) preO (g.drop j ++ restO) _ _ start _ hO' hpO
          (by rw [List.length_take]; omega)]
        have htake : g.take (j + 1) = g := by rw [← hgl, List.take_length]
        have hdl : g.dropLast = g.take j := by rw [List.dropLast_eq_take, hgl]; rfl
        simp only [pure, Except.pure, if_pos hnil, lastGroup, htake, hdl, hgl, h331]
      · rw [if_neg h331]
        have := ih (j + 1) fuel (by omega) (by omega) (fun h => by
          have : restS.length = 0 := by rw [h]; rfl
          omega) (by omega)
        rw [← this]
        rfl

theorem trkLoop_blocks (cut S : List Int) (O : List ℚ) (hlen : S.length = num) :
    ∀ (bs : List (Int × List ℚ)) (preS postS : List Int) (preO postO : List ℚ)
      (k start : Nat) (groups : List Group),
      S = preS ++ bs.flatMap blockRadii ++ postS →
      O = preO ++ bs.flatMap (fun b => b.2) ++ postO →
      preS.length = start → preO.length = start →
      (∀ i (hi : i < bs.length), cut[k + i]? = some bs[i].1) →
      (∀ b ∈ bs, b.2 ≠ []) →
      List.Chain' (· ≠ ·) (bs.map (fun b => b.1) ++ postS.head?.toList) →
      trkLoop cut S O bs.length k start groups
        = .ok (groups ++ closures bs (decide (postS = []))) := by
  intro bs
  induction bs with
  | nil =>
    intro preS postS preO postO k start groups _ _ _ _ _ _ _
    simp [trkLoop, closures, pure, Except.pure]
  | cons b t ih =>
    intro preS postS preO postO k start groups hS hO hpS hpO hcut hne hchain
    have hS' : S = preS ++ List.replicate b.2.length b.1 ++ (t.flatMap blockRadii ++ postS) := by
      rw [hS]
      simp [blockRadii]
    have hO' : O = preO ++ b.2 ++ (t.flatMap (fun b => b.2) ++ postO) := by
      rw [hO]
      simp
    have hb : b.2 ≠ [] := hne b (List.mem_cons_self _ _)
    have hrest : (t.flatMap blockRadii ++ postS).head? ≠ some b.1 := by
      cases t with
      | nil =>
        simp only [List.flatMap_nil, List.nil_append]
        intro h
        rw [h] at hchain
        simp at hchain
      | cons b' t' =>
        have hb' : b'.2 ≠ [] := hne b' (by simp)
        obtain ⟨q, g', hg'⟩ := List.exists_cons_of_ne_nil hb'
        simp only [List.flatMap_cons, blockRadii, hg', List.length_cons, List.replicate_succ,
          List.cons_append, List.head?_cons, ne_eq, Option.some.injEq]
        intro h
        simp only [List.map_cons, List.cons_append, List.chain'_cons] at hchain
        exact hchain.1 h.symm
    have hbin := binLoop_block cut S O k start b.1 b.2 preS (t.flatMap blockRadii ++ postS)
      preO (t.flatMap (fun b => b.2) ++ postO) (by simpa using hcut 0 (by simp)) hS' hO' hpS hpO
      hlen hrest b.2.length 0 num rfl (Nat.zero_le _)
      (fun _ => List.length_pos.mpr hb) (by omega)
    simp only [Nat.add_zero, List.take_zero, List.sum_nil] at hbin
    simp only [List.length_cons]
    unfold trkLoop
    simp only [bind, Except.bind, hbin]
    by_cases hnil : t.flatMap blockRadii ++ postS = []
    · have ht : t = [] := by
        cases t with
        | nil => rfl
        | cons b' t' =>
          exfalso
          have hb' : b'.2 ≠ [] := hne b' (by simp)
          obtain ⟨q, g', hg'⟩ := List.exists_cons_of_ne_nil hb'
          simp [blockRadii, hg', List.replicate_succ] at hnil
      subst ht
      have hpost : postS = [] := by simpa using hnil
      simp only [if_pos hnil, List.length_nil]
      unfold trkLoop
      simp [closures, hpost, pure, Except.pure]
    · simp only [if_neg hnil]
      have hnot : ¬ (t = [] ∧ decide (postS = []) = true) := by
        rintro ⟨h1, h2⟩
        apply hnil
        rw [h1, of_decide_eq_true h2]
        rfl
      have := ih (preS ++ blockRadii b) postS (preO ++ b.2) postO (k + 1)
        (start + b.2.length) (groups ++ [fullGroup b.2])
        (by rw [hS]; simp)
        (by rw [hO]; simp)
        (by simp [blockRadii, hpS])
        (by simp [hpO])
        (fun i hi => by
          have := hcut (i + 1) (by simpa using hi)
          rw [show k + 1 + i = k + (i + 1) by omega]
          simpa using this)
        (fun b' hb' => hne b' (List.mem_cons_of_mem _ hb'))
        (by
          simp only [List.map_cons, List.cons_append] at hchain
          exact hchain.tail)
      rw [this]
      have hnot' : ¬ (t = [] ∧ postS = []) := fun h => hnot ⟨h.1, decide_eq_true h.2⟩
      simp [closures, hnot']

/-! ## The sorted radii as a sequence of blocks -/

theorem flatMap_congr' {α β : Type} {l : List α} {f g : α → List β}
    (h : ∀ a ∈ l, f a = g a) : l.flatMap f = l.flatMap g := by
  induction l with
  | nil => rfl
  | cons a t ih =>
    rw [List.flatMap_cons, List.flatMap_cons, h a (List.mem_cons_self _ _),
      ih (fun b hb => h b (List.mem_cons_of_mem _ hb))]

theorem sorted_eq_blocks (S : List Int) (h : S.Sorted (· ≤ ·)) :
    S = (unique S).flatMap (fun c => List.replicate (S.count c) c) := by
  induction S with
  | nil => rfl
  | cons a t ih =>
    have ht : t.Sorted (· ≤ ·) := h.of_cons
    have iht := ih ht
    cases t with
    | nil => simp [unique]
    | cons b t' =>
      have hab : a ≤ b := List.rel_of_sorted_cons h b (List.mem_cons_self _ _)
      have hge : ∀ v ∈ b :: t', b ≤ v := by
        intro v hv
        rcases List.mem_cons.mp hv with hvb | hvt
        · exact hvb ▸ le_refl _
        · exact List.rel_of_sorted_cons ht v hvt
      by_cases heq : a = b
      · obtain ⟨u, hu⟩ := unique_cons_head b t'
        have hsu : (b :: u).Sorted (· < ·) := hu ▸ unique_sorted ht
        have hub : ∀ v ∈ u, v ≠ a := by
          intro v hv
          have := List.rel_of_sorted_cons hsu v hv
          omega
        rw [unique, if_pos heq, hu, List.flatMap_cons]
        rw [hu, List.flatMap_cons] at iht
        have h1 : List.count b (a :: b :: t') = List.count b (b :: t') + 1 := by
          rw [heq, List.count_cons_self]
        have h2 : u.flatMap (fun c => List.replicate (List.count c (a :: b :: t')) c)
            = u.flatMap (fun c => List.replicate (List.count c (b :: t')) c) :=
          flatMap_congr' (fun v hv => by
            rw [List.count_cons_of_ne (hub v hv)])
        rw [h1, h2, List.replicate_succ, List.cons_append, ← iht, heq]
      · have hlt : a < b := by omega
        have hnot : a ∉ b :: t' := fun hmem => by
          have := hge a hmem
          omega
        rw [unique, if_neg heq, List.flatMap_cons]
        have h1 : List.count a (a :: b :: t') = 1 := by
          rw [List.count_cons_self, List.count_eq_zero_of_not_mem hnot]
        have h2 : (unique (b :: t')).flatMap
              (fun c => List.replicate (List.count c (a :: b :: t')) c)
            = (unique (b :: t')).flatMap (fun c => List.replicate (List.count c (b :: t')) c) :=
          flatMap_congr' (fun v hv => by
            have hv' : v ∈ b :: t' := mem_unique.mp hv
            have : v ≠ a := fun hva => hnot (hva ▸ hv')
            rw [List.count_cons_of_ne this])
        rw [h1, h2, ← iht]
        rfl

theorem length_members (r : List Int) (c : Int) (hr : r.length = 332) :
    (members r c).length = r.count c := by
  have key : ∀ l : List Int,
      ((List.range l.length).filter (fun j => decide (l[j]? = some c))).length = l.count c := by
    intro l
    induction l using List.reverseRecOn with
    | nil => rfl
    | append_singleton l x ih =>
      rw [List.length_append, List.length_singleton, List.range_succ, List.filter_append,
        List.length_append, List.count_append]
      have h1 : (List.range l.length).filter (fun j => decide ((l ++ [x])[j]? = some c))
          = (List.range l.length).filter (fun j => decide (l[j]? = some c)) := by
        apply List.filter_congr
        intro j hj
        rw [List.getElem?_append_left (List.mem_range.mp hj)]
      rw [h1, ih]
      congr 1
      by_cases hx : x = c
      · simp [hx]
      · have hx' : ¬ c = x := fun h => hx h.symm
        simp [hx, hx', List.count_cons]
  unfold members
  rw [← hr]
  exact key r

theorem length_binRatios (r : List Int) (ratio : List ℚ) (c : Int) (hr : r.length = 332) :
    (binRatios r ratio c).length = (sort r).count c := by
  rw [binRatios, List.length_map, length_members r c hr, (sort_perm r).count_eq]

/-! ## The groups of a run -/

theorem setRatio_ready {rows : List Row} {run lowest run' : Run} (hb : Built rows run)
    (h : setRatio run lowest = .ok run') :
    Ready run' ∧ run'.r = run.r ∧ run'.ampMean = run.ampMean := by
  unfold setRatio at h
  cases ht : tabulate num (fun i => do
      let a ← read run.ampMean i
      let b ← read lowest.ampMean i
      pure (a / b)) with
  | error e =>
    rw [ht] at h
    cases h
  | ok ratio =>
    rw [ht] at h
    simp only [bind, Except.bind, pure, Except.pure] at h
    injection h with h
    subst h
    have hlen : ratio.length = num := by
      have := (mapM_ok_inv _ _ _ ht).1
      rw [this, List.length_range]
    exact ⟨⟨hb.length_r, hlen, hb.rOrdered, hb.rOrderedCut, hb.orderedRatios,
      hb.orderedRatioArray, hb.average, hb.error⟩, rfl, rfl⟩

theorem count_pos_of_mem_rSorted {r : List Int} {c : Int} (h : c ∈ rSorted r) :
    0 < (sort r).count c :=
  List.count_pos_iff.mpr (mem_sort.mpr (mem_rSorted.mp h))

theorem flatMap_blockRadii (r : List Int) (ratio : List ℚ) (hr : r.length = 332)
    (l : List Int) :
    (l.map (fun c => (c, binRatios r ratio c))).flatMap blockRadii
      = l.flatMap (fun c => List.replicate ((sort r).count c) c) := by
  induction l with
  | nil => rfl
  | cons a t ih =>
    rw [List.map_cons, List.flatMap_cons, List.flatMap_cons, ih]
    simp only [blockRadii, length_binRatios r ratio a hr]

theorem sort_eq_blocks (r : List Int) (ratio : List ℚ) (hr : r.length = 332) :
    sort r = [] ++ (blocks r ratio).flatMap blockRadii ++ beyond r := by
  rw [blocks, flatMap_blockRadii r ratio hr, beyond, List.nil_append, ← List.flatMap_append,
    List.take_append_drop]
  exact sorted_eq_blocks (sort r) (sort_sorted r)

theorem flatMap_snd_blocks (r : List Int) (ratio : List ℚ) :
    (blocks r ratio).flatMap (fun b => b.2)
      = ((rSorted r).take 39).flatMap (binRatios r ratio) := by
  unfold blocks
  induction (rSorted r).take 39 with
  | nil => rfl
  | cons a t ih => rw [List.map_cons, List.flatMap_cons, List.flatMap_cons, ih]

theorem length_flatMap_snd (bs : List (Int × List ℚ)) :
    (bs.flatMap (fun b => b.2)).length = (bs.flatMap blockRadii).length := by
  induction bs with
  | nil => rfl
  | cons b t ih =>
    rw [List.flatMap_cons, List.flatMap_cons, List.length_append, List.length_append, ih]
    simp [blockRadii]

theorem head?_beyond (r : List Int) : (beyond r).head? = ((rSorted r).drop 39).head? := by
  unfold beyond
  have hmem : ∀ c ∈ (rSorted r).drop 39, c ∈ rSorted r := fun c hc => List.mem_of_mem_drop hc
  cases hd : (rSorted r).drop 39 with
  | nil => rfl
  | cons u rest =>
    have hu : 0 < (sort r).count u := count_pos_of_mem_rSorted (hmem u (by rw [hd]; simp))
    obtain ⟨n, hn⟩ := Nat.exists_eq_succ_of_ne_zero (Nat.pos_iff_ne_zero.mp hu)
    simp [hn, List.replicate_succ]

theorem beyond_eq_nil_iff (r : List Int) : beyond r = [] ↔ (rSorted r).length ≤ 39 := by
  rw [← List.head?_eq_none_iff, head?_beyond, List.head?_eq_none_iff, List.drop_eq_nil_iff]

theorem chain_blocks (r : List Int) (ratio : List ℚ) :
    List.Chain' (· ≠ ·) ((blocks r ratio).map (fun b => b.1) ++ (beyond r).head?.toList) := by
  have hkeys : (blocks r ratio).map (fun b => b.1) = (rSorted r).take 39 := by
    unfold blocks
    rw [List.map_map]
    exact List.map_id _
  rw [hkeys, head?_beyond]
  have hsub : ((rSorted r).take 39 ++ ((rSorted r).drop 39).head?.toList).Sublist (rSorted r) := by
    conv_rhs => rw [← List.take_append_drop 39 (rSorted r)]
    apply List.Sublist.append (List.Sublist.refl _)
    cases (rSorted r).drop 39 with
    | nil => exact List.Sublist.refl _
    | cons u rest => simp
  have hpw : List.Pairwise (· < ·) (rSorted r) := rSorted_sorted r
  exact (hpw.sublist hsub).chain'.imp (fun _ _ h => ne_of_lt h)

theorem binGroups_ready (run : Run) (h : Ready run) (hd : 39 ≤ (rSorted run.r).length) :
    binGroups run = .ok (closures (blocks run.r run.ratio) (decide (beyond run.r = []))) := by
  have hr : run.r.length = 332 := h.r_len
  have hbl : (blocks run.r run.ratio).length = 39 := by
    rw [blocks, List.length_map, List.length_take]
    omega
  have hcut : 39 ≤ run.rOrderedCut.length := by
    rw [h.rOrderedCut, List.length_take]
    omega
  have hS := sort_eq_blocks run.r run.ratio hr
  have hOlen : ((blocks run.r run.ratio).flatMap (fun b => b.2)).length ≤ num := by
    rw [length_flatMap_snd, ← h.r_len, ← length_sort run.r]
    conv_rhs => rw [hS]
    simp
  have hO : (run.orderedRatios ++
        (run.rOrderedCut.take 39).flatMap (binRatios run.r run.ratio)
        ++ run.orderedRatioArray.drop (run.orderedRatios ++
          (run.rOrderedCut.take 39).flatMap (binRatios run.r run.ratio)).length).take num
      = [] ++ (blocks run.r run.ratio).flatMap (fun b => b.2) ++ [] := by
    rw [h.orderedRatios, h.orderedRatioArray, h.rOrderedCut, List.take_take, Nat.min_self,
      ← flatMap_snd_blocks]
    simp only [List.nil_append, List.drop_nil, List.append_nil]
    exact List.take_of_length_le hOlen
  unfold binGroups
  rw [orderRatios_ok run hcut h.r_len h.ratio_len]
  simp only [bind, Except.bind]
  rw [hO, h.rOrdered]
  have := trkLoop_blocks run.rOrderedCut (sort run.r)
    ([] ++ (blocks run.r run.ratio).flatMap (fun b => b.2) ++ [])
    (by rw [length_sort, h.r_len]) (blocks run.r run.ratio) [] (beyond run.r) [] [] 0 0 []
    hS rfl rfl rfl
    (fun i hi => by
      rw [h.rOrderedCut, Nat.zero_add]
      unfold blocks
      rw [List.getElem_map]
      exact List.getElem?_eq_getElem _)
    (fun b hb => by
      unfold blocks at hb
      obtain ⟨c, hc, rfl⟩ := List.mem_map.mp hb
      have hpos := count_pos_of_mem_rSorted (List.mem_of_mem_take hc)
      rw [← length_binRatios run.r run.ratio c hr] at hpos
      exact List.ne_nil_of_length_pos hpos)
    (chain_blocks run.r run.ratio)
  rw [hbl] at this
  rw [this]
  rfl

theorem length_closures (bs : List (Int × List ℚ)) (e : Bool) :
    (closures bs e).length = bs.length := by
  induction bs with
  | nil => rfl
  | cons b t ih => simp [closures, ih]

theorem closures_avg (bs : List (Int × List ℚ)) (e : Bool) :
    (closures bs e).map Group.avg = bs.map (fun b => mean b.2) := by
  induction bs with
  | nil => rfl
  | cons b t ih =>
    rw [closures, List.map_cons, List.map_cons, ih]
    congr 1
    split <;> rfl

theorem closures_count (bs : List (Int × List ℚ)) (e : Bool) :
    (closures bs e).map Group.count = bs.map (fun b => b.2.length) := by
  induction bs with
  | nil => rfl
  | cons b t ih =>
    rw [closures, List.map_cons, List.map_cons, ih]
    congr 1
    split <;> rfl

theorem closures_getElem?_full (bs : List (Int × List ℚ)) (e : Bool) (k : Nat)
    (hk : k + 1 < bs.length ∨ e = false) :
    (closures bs e)[k]? = (bs[k]?).map (fun b => fullGroup b.2) := by
  induction bs generalizing k with
  | nil => rfl
  | cons b t ih =>
    cases k with
    | zero =>
      have hnot : ¬ (t = [] ∧ e = true) := by
        rintro ⟨h1, h2⟩
        rcases hk with hk | hk
        · rw [h1] at hk
          simp at hk
        · rw [h2] at hk
          cases hk
      simp [closures, hnot]
    | succ k =>
      simp only [closures, List.getElem?_cons_succ]
      exact ih k (by
        rcases hk with hk | hk
        · left
          simpa using hk
        · right
          exact hk)

theorem closures_getElem?_last (bs : List (Int × List ℚ)) (k : Nat) (hk : k + 1 = bs.length) :
    (closures bs true)[k]? = (bs[k]?).map (fun b => lastGroup b.2) := by
  induction bs generalizing k with
  | nil => simp at hk
  | cons b t ih =>
    cases k with
    | zero =>
      have ht : t = [] := List.length_eq_zero.mp (by simpa using hk.symm)
      simp [closures, ht]
    | succ k =>
      simp only [closures, List.getElem?_cons_succ]
      exact ih k (by simpa using hk)

theorem sum_count_closures (bs : List (Int × List ℚ)) (e : Bool) :
    ((closures bs e).map Group.count).sum = (bs.flatMap blockRadii).length := by
  rw [closures_count]
  induction bs with
  | nil => rfl
  | cons b t ih =>
    rw [List.map_cons, List.sum_cons, ih, List.flatMap_cons, List.length_append]
    simp [blockRadii]

theorem sum_count_add_beyond (r : List Int) (ratio : List ℚ) (hr : r.length = 332) (e : Bool) :
    ((closures (blocks r ratio) e).map Group.count).sum + (beyond r).length = 332 := by
  rw [sum_count_closures, ← hr, ← length_sort r]
  conv_rhs => rw [sort_eq_blocks r ratio hr]
  simp

theorem setParameters_of_binGroups {run : Run} {groups : List Group}
    (h : binGroups run = .ok groups) :
    ∃ run', setParameters run = .ok run' ∧
      run'.average = run.average ++ groups.map Group.avg ∧
      run'.error = run.error ++ groups.map Group.std ∧
      run'.r = run.r ∧ run'.ratio = run.ratio ∧ run'.rOrderedCut = run.rOrderedCut := by
  unfold binGroups at h
  unfold setParameters
  cases ho : orderRatios run with
  | error e =>
    rw [ho] at h
    cases h
  | ok ordered =>
    rw [ho] at h
    simp only [bind, Except.bind] at h ⊢
    rw [h]
    exact ⟨_, rfl, rfl, rfl, rfl, rfl, rfl⟩

theorem blocks_getElem? (r : List Int) (ratio : List ℚ) (k : Nat) (c : Int) (hk : k < 39)
    (hc : (rSorted r)[k]? = some c) :
    (blocks r ratio)[k]? = some (c, binRatios r ratio c) := by
  unfold blocks
  rw [List.getElem?_map, List.getElem?_take_of_lt hk, hc]
  rfl

/-! ## Sample runs -/

theorem sampleRun_ok {filename : List Char} {rows : List Row} {number : List Char × Int}
    (hp : parseRunNumber filename = .ok number) (hlen : num ≤ rows.length) :
    Run.construct filename (some rows) = .ok (sampleRun filename rows) := by
  obtain ⟨run, h⟩ := construct_some_ok hp hlen
  unfold sampleRun
  rw [h]
  rfl

theorem setRatio_runOf {this lowest : Run} (ht : this.ampMean.length = num)
    (hl : lowest.ampMean.length = num) :
    setRatio this lowest = .ok (runOf (setRatio this lowest)) := by
  rw [setRatio_ok ht hl]
  rfl

theorem constRows_r {filename : List Char} {ids : List Int} {amp : ℚ} {run : Run}
    (h : Run.construct filename (some (constRows ids amp)) = .ok run) (hlen : ids.length = 332) :
    run.component = ids ∧ run.r = ids.map radius := by
  have hb := construct_built h
  have hc : run.component = ids := by
    rw [hb.component, constRows, List.map_take, List.map_map]
    have : (Row.component ∘ fun c => ({ component := c, ampMean := amp } : Row)) = id := rfl
    rw [this, List.map_id]
    exact List.take_of_length_le (by rw [hlen]; exact le_refl _)
  exact ⟨hc, by rw [hb.r, hc]⟩

theorem length_constRows (ids : List Int) (amp : ℚ) : (constRows ids amp).length = ids.length := by
  simp [constRows]

theorem length_annulus : annulus.length = 332 := by decide!

theorem length_firstIds : firstIds.length = 332 := by
  rw [firstIds, List.length_map, List.length_range]

theorem annulus_ok (amp : ℚ) :
    Run.construct name2 (some (constRows annulus amp)) = .ok (sampleRun name2 (constRows annulus amp)) :=
  sampleRun_ok parse_name2 (by rw [length_constRows, length_annulus]; exact le_refl _)

theorem annulus_ok1 (amp : ℚ) :
    Run.construct name1 (some (constRows annulus amp)) = .ok (sampleRun name1 (constRows annulus amp)) :=
  sampleRun_ok parse_name1 (by rw [length_constRows, length_annulus]; exact le_refl _)

theorem annulus_39 {filename : List Char} {amp : ℚ} {run : Run}
    (h : Run.construct filename (some (constRows annulus amp)) = .ok run) :
    (rSorted run.r).length = 39 := by
  rw [(constRows_r h length_annulus).2, annulus_distinct]

theorem annulus_setRatio (a b : ℚ) :
    setRatio (sampleRun name2 (constRows annulus a)) (sampleRun name1 (constRows annulus b))
      = .ok (runOf (setRatio (sampleRun name2 (constRows annulus a))
          (sampleRun name1 (constRows annulus b)))) :=
  setRatio_runOf (construct_built (annulus_ok a)).length_ampMean
    (construct_built (annulus_ok1 b)).length_ampMean

/-! ## Witnesses on the annulus table -/

/-- Witness of C1: row 0 of the annulus table holds component 163. -/
theorem construct_geometry_witness :
    Run.construct name2 (some (constRows annulus 1)) = .ok (sampleRun name2 (constRows annulus 1)) ∧
      0 < 332 ∧ ((constRows annulus 1)[0]?).map Row.component = some 163 ∧
      (sampleRun name2 (constRows annulus 1)).y[0]? = some (remap (163 / 22 + 1)) :=
  ⟨annulus_ok 1, by decide, by decide!,
    (construct_geometry name2 (constRows annulus 1) (sampleRun name2 (constRows annulus 1)) 0 163
      (annulus_ok 1) (by decide) (by decide!) (by decide) (by decide)).1⟩

/-- Witness of C4: the annulus table. -/
theorem construct_rSorted_strict_witness :
    Run.construct name2 (some (constRows annulus 1)) = .ok (sampleRun name2 (constRows annulus 1)) ∧
      (rSorted (sampleRun name2 (constRows annulus 1)).r).Nodup :=
  ⟨annulus_ok 1,
    (construct_rSorted_strict name2 (constRows annulus 1) (sampleRun name2 (constRows annulus 1))
      (annulus_ok 1)).2.2.2.2.1⟩

/-- Witness of C6: amplitude 150 in every row of the run, 100 in every row of the baseline. -/
theorem setRatio_entries_witness :
    Run.construct name2 (some (constRows annulus 150))
        = .ok (sampleRun name2 (constRows annulus 150)) ∧
      Run.construct name1 (some (constRows annulus 100))
        = .ok (sampleRun name1 (constRows annulus 100)) ∧
      ∃ run', setRatio (sampleRun name2 (constRows annulus 150))
          (sampleRun name1 (constRows annulus 100)) = .ok run' ∧ run'.ratio[5]? = some (3 / 2) :=
  ⟨annulus_ok 150, annulus_ok1 100,
    (setRatio_entries name2 name1 (constRows annulus 150) (constRows annulus 100)
      (sampleRun name2 (constRows annulus 150)) (sampleRun name1 (constRows annulus 100))
      (annulus_ok 150) (annulus_ok1 100)).elim
      (fun run' h => ⟨run', h.1, h.2.2.2 (by decide!) (by decide!)⟩)⟩

/-! ## The averages -/

/-- C2. For a run with exactly 39 distinct radii whose ratios have been set, one call of
`setParameters` on the freshly constructed run produces 39 averages, and the average of bin `k`
is the arithmetic mean of `ratio[j]` over the components `j` whose radius `r[j]` is the `k`-th
distinct radius (there is at least one such component). -/
theorem setParameters_average (filename : List Char) (rows : List Row) (lowest run0 run1 : Run)
    (h0 : Run.construct filename (some rows) = .ok run0)
    (h1 : setRatio run0 lowest = .ok run1)
    (hd : (rSorted run0.r).length = 39) :
    ∃ run2, setParameters run1 = .ok run2 ∧ run2.average.length = 39 ∧
      ∀ k c, k < 39 → (rSorted run0.r)[k]? = some c →
        members run1.r c ≠ [] ∧
        run2.average[k]? = some (mean ((members run1.r c).map (fun j => run1.ratio.getD j 0))) := by
  obtain ⟨hready, hr, _⟩ := setRatio_ready (construct_built h0) h1
  have hd' : 39 ≤ (rSorted run1.r).length := by rw [hr, hd]
  have hg := binGroups_ready run1 hready hd'
  obtain ⟨run2, h2, havg, _, _, _, _⟩ := setParameters_of_binGroups hg
  have hbl : (blocks run1.r run1.ratio).length = 39 := by
    rw [blocks, List.length_map, List.length_take]
    omega
  refine ⟨run2, h2, ?_, ?_⟩
  · rw [havg, hready.average, List.nil_append, List.length_map, length_closures, hbl]
  · intro k c hk hc
    rw [← hr] at hc
    constructor
    · have hpos := count_pos_of_mem_rSorted (List.mem_iff_getElem?.mpr ⟨k, hc⟩)
      rw [(sort_perm run1.r).count_eq, ← length_members run1.r c hready.r_len] at hpos
      exact List.ne_nil_of_length_pos hpos
    · rw [havg, hready.average, List.nil_append, closures_avg, List.getElem?_map,
        blocks_getElem? run1.r run1.ratio k c hk hc]
      rfl

/-- Witness of C2: the annulus table with amplitude 150 against the same table with amplitude
100. -/
theorem setParameters_average_witness :
    Run.construct name2 (some (constRows annulus 150))
        = .ok (sampleRun name2 (constRows annulus 150)) ∧
      setRatio (sampleRun name2 (constRows annulus 150)) (sampleRun name1 (constRows annulus 100))
        = .ok (runOf (setRatio (sampleRun name2 (constRows annulus 150))
            (sampleRun name1 (constRows annulus 100)))) ∧
      (rSorted (sampleRun name2 (constRows annulus 150)).r).length = 39 ∧
      ∃ run2, setParameters (runOf (setRatio (sampleRun name2 (constRows annulus 150))
          (sampleRun name1 (constRows annulus 100)))) = .ok run2 ∧ run2.average.length = 39 :=
  ⟨annulus_ok 150, annulus_setRatio 150 100, annulus_39 (annulus_ok 150),
    (setParameters_average name2 (constRows annulus 150) (sampleRun name1 (constRows annulus 100))
      (sampleRun name2 (constRows annulus 150))
      (runOf (setRatio (sampleRun name2 (constRows annulus 150))
        (sampleRun name1 (constRows annulus 100))))
      (annulus_ok 150) (annulus_setRatio 150 100) (annulus_39 (annulus_ok 150))).elim
      (fun run2 h => ⟨run2, h.1, h.2.1⟩)⟩

/-! ## The member counts -/

theorem ready_firstIds :
    Run.construct name2 (some (constRows firstIds 1))
        = .ok (sampleRun name2 (constRows firstIds 1)) ∧
      setRatio (sampleRun name2 (constRows firstIds 1)) (sampleRun name2 (constRows firstIds 1))
        = .ok (runOf (setRatio (sampleRun name2 (constRows firstIds 1))
            (sampleRun name2 (constRows firstIds 1)))) ∧
      (rSorted (sampleRun name2 (constRows firstIds 1)).r).length = 61 := by
  have h0 : Run.construct name2 (some (constRows firstIds 1))
      = .ok (sampleRun name2 (constRows firstIds 1)) :=
    sampleRun_ok parse_name2 (by rw [length_constRows, length_firstIds]; exact le_refl _)
  have hb := construct_built h0
  refine ⟨h0, setRatio_runOf hb.length_ampMean hb.length_ampMean, ?_⟩
  rw [(constRows_r h0 length_firstIds).2, firstIds_distinct]

/-- C5, as stated, fails: for the table with the component numbers 0, 1, ..., 331, whose
distinct radii are derived from its own radii by the constructor, the counts of the groups that
`setParameters` closes do not sum to 332. -/
theorem counts_firstIds :
    ∃ run0 run1 groups,
      Run.construct name2 (some (constRows firstIds 1)) = .ok run0 ∧
      setRatio run0 run0 = .ok run1 ∧
      run1.rOrderedCut = (unique (sort run1.r)).take 39 ∧
      binGroups run1 = .ok groups ∧ (groups.map Group.count).sum ≠ 332 := by
  obtain ⟨h0, h1, h61⟩ := ready_firstIds
  obtain ⟨hready, hr, _⟩ := setRatio_ready (construct_built h0) h1
  have h61' : (rSorted (runOf (setRatio (sampleRun name2 (constRows firstIds 1))
      (sampleRun name2 (constRows firstIds 1)))).r).length = 61 := by rw [hr, h61]
  have hg := binGroups_ready _ hready (by rw [h61']; decide)
  refine ⟨_, _, _, h0, h1, hready.rOrderedCut, hg, ?_⟩
  have hsum := sum_count_add_beyond _ (runOf (setRatio (sampleRun name2 (constRows firstIds 1))
      (sampleRun name2 (constRows firstIds 1)))).ratio hready.r_len
      (decide (beyond (runOf (setRatio (sampleRun name2 (constRows firstIds 1))
      (sampleRun name2 (constRows firstIds 1)))).r = []))
  have hne : beyond (runOf (setRatio (sampleRun name2 (constRows firstIds 1))
      (sampleRun name2 (constRows firstIds 1)))).r ≠ [] := by
    rw [Ne, beyond_eq_nil_iff, h61']
    decide
  have hpos := List.length_pos.mpr hne
  omega

/-- C5, amended. For a run with exactly 39 distinct radii, derived from the radii of that same
run, `setParameters` closes 39 groups, the count of group `k` is the number of components whose
radius is the `k`-th distinct radius, the counts sum to 332, and every component belongs to
exactly one bin. -/
theorem binGroups_counts (filename : List Char) (rows : List Row) (lowest run0 run1 : Run)
    (h0 : Run.construct filename (some rows) = .ok run0)
    (h1 : setRatio run0 lowest = .ok run1)
    (hd : (rSorted run0.r).length = 39) :
    ∃ groups, binGroups run1 = .ok groups ∧ groups.length = 39 ∧
      (∀ k c, k < 39 → (rSorted run0.r)[k]? = some c →
        (groups[k]?).map Group.count = some (members run1.r c).length) ∧
      (groups.map Group.count).sum = 332 ∧
      (∀ j, j < 332 → ∃! k, k < 39 ∧ (rSorted run0.r)[k]? = run1.r[j]?) := by
  obtain ⟨hready, hr, _⟩ := setRatio_ready (construct_built h0) h1
  have hd' : (rSorted run1.r).length = 39 := by rw [hr, hd]
  have hg := binGroups_ready run1 hready (by rw [hd'])
  have hbl : (blocks run1.r run1.ratio).length = 39 := by
    rw [blocks, List.length_map, List.length_take]
    omega
  refine ⟨_, hg, by rw [length_closures, hbl], ?_, ?_, ?_⟩
  · intro k c hk hc
    rw [← hr] at hc
    rw [← List.getElem?_map, closures_count, List.getElem?_map,
      blocks_getElem? run1.r run1.ratio k c hk hc]
    simp [binRatios]
  · have hsum := sum_count_add_beyond run1.r run1.ratio hready.r_len
      (decide (beyond run1.r = []))
    have hnil : beyond run1.r = [] := (beyond_eq_nil_iff run1.r).mpr (by omega)
    have hzero : (beyond run1.r).length = 0 := by rw [hnil]; rfl
    omega
  · intro j hj
    have hjr : j < run1.r.length := by rw [hready.r_len]; exact hj
    have hv : run1.r[j]? = some run1.r[j] := List.getElem?_eq_getElem hjr
    have hmem : run1.r[j] ∈ rSorted run0.r := by
      rw [← hr]
      exact mem_rSorted.mpr (List.getElem_mem hjr)
    obtain ⟨k, hk⟩ := List.mem_iff_getElem?.mp hmem
    have hklt : k < 39 := by
      rw [← hd]
      exact (List.getElem?_eq_some_iff.mp hk).1
    refine ⟨k, ⟨hklt, by rw [hk, hv]⟩, ?_⟩
    rintro k' ⟨hk', hk'eq⟩
    exact (List.getElem?_inj (by rw [hd]; exact hklt) (rSorted_nodup run0.r)
      (by rw [hk, hk'eq, hv])).symm

/-- Witness of the amended C5: the annulus table with amplitude 150 against amplitude 100. -/
theorem binGroups_counts_witness :
    Run.construct name2 (some (constRows annulus 150))
        = .ok (sampleRun name2 (constRows annulus 150)) ∧
      setRatio (sampleRun name2 (constRows annulus 150)) (sampleRun name1 (constRows annulus 100))
        = .ok (runOf (setRatio (sampleRun name2 (constRows annulus 150))
            (sampleRun name1 (constRows annulus 100)))) ∧
      (rSorted (sampleRun name2 (constRows annulus 150)).r).length = 39 ∧
      ∃ groups, binGroups (runOf (setRatio (sampleRun name2 (constRows annulus 150))
          (sampleRun name1 (constRows annulus 100)))) = .ok groups ∧
        (groups.map Group.count).sum = 332 :=
  ⟨annulus_ok 150, annulus_setRatio 150 100, annulus_39 (annulus_ok 150),
    (binGroups_counts name2 (constRows annulus 150) (sampleRun name1 (constRows annulus 100))
      (sampleRun name2 (constRows annulus 150))
      (runOf (setRatio (sampleRun name2 (constRows annulus 150))
        (sampleRun name1 (constRows annulus 100))))
      (annulus_ok 150) (annulus_setRatio 150 100) (annulus_39 (annulus_ok 150))).elim
      (fun groups h => ⟨groups, h.1, h.2.2.2.1⟩)⟩

/-! ## The standard deviations -/

theorem fullGroup_std (g : List ℚ) : (fullGroup g).std = popVariance g := by
  unfold fullGroup popVariance deviations mean
  simp only [pow_two]

theorem setParameters_error (filename : List Char) (rows : List Row) (lowest run0 run1 : Run)
    (h0 : Run.construct filename (some rows) = .ok run0)
    (h1 : setRatio run0 lowest = .ok run1)
    (hd : (rSorted run0.r).length = 39) :
    ∃ run2, setParameters run1 = .ok run2 ∧ run2.error.length = 39 ∧
      (∀ k c, k < 38 → (rSorted run0.r)[k]? = some c →
        run2.error[k]? = some (popVariance (binRatios run1.r run1.ratio c))) ∧
      (∀ c, (rSorted run0.r)[38]? = some c →
        run2.average[38]? = some (mean (binRatios run1.r run1.ratio c)) ∧
        run2.error[38]? = some (deviations (binRatios run1.r run1.ratio c).dropLast
          (mean (binRatios run1.r run1.ratio c)) / ((binRatios run1.r run1.ratio c).length : ℚ))) := by
  obtain ⟨hready, hr, _⟩ := setRatio_ready (construct_built h0) h1
  have hd' : (rSorted run1.r).length = 39 := by rw [hr, hd]
  have hg := binGroups_ready run1 hready (by rw [hd'])
  have hnil : beyond run1.r = [] := (beyond_eq_nil_iff run1.r).mpr (by omega)
  rw [hnil] at hg
  obtain ⟨run2, h2, havg, herr, _, _, _⟩ := setParameters_of_binGroups hg
  have hbl : (blocks run1.r run1.ratio).length = 39 := by
    rw [blocks, List.length_map, List.length_take]
    omega
  refine ⟨run2, h2, ?_, ?_, ?_⟩
  · rw [herr, hready.error, List.nil_append, List.length_map, length_closures, hbl]
  · intro k c hk hc
    rw [← hr] at hc
    rw [herr, hready.error, List.nil_append, List.getElem?_map,
      closures_getElem?_full _ _ k (Or.inl (by omega)),
      blocks_getElem? run1.r run1.ratio k c (by omega) hc]
    simp only [Option.map_some', fullGroup_std]
  · intro c hc
    rw [← hr] at hc
    constructor
    · rw [havg, hready.average, List.nil_append, closures_avg, List.getElem?_map,
        blocks_getElem? run1.r run1.ratio 38 c (by decide) hc]
      rfl
    · rw [herr, hready.error, List.nil_append, List.getElem?_map]
      have : decide (([] : List Int) = []) = true := rfl
      rw [this, closures_getElem?_last _ 38 (by omega),
        blocks_getElem? run1.r run1.ratio 38 c (by decide) hc]
      rfl

theorem stepRows_ok :
    Run.construct name2 (some stepRows) = .ok (sampleRun name2 stepRows) :=
  sampleRun_ok parse_name2 (by decide!)

theorem stepRun_ok :
    setRatio (sampleRun name2 stepRows) (sampleRun name1 (constRows annulus 1))
      = .ok stepRun :=
  setRatio_runOf (construct_built stepRows_ok).length_ampMean
    (construct_built (annulus_ok1 1)).length_ampMean

theorem stepRun_r : (sampleRun name2 stepRows).r = annulus.map radius := by
  have hb := construct_built stepRows_ok
  rw [hb.r, hb.component]
  decide!

theorem range_map_getD_div (a b : List ℚ) (h : a.length = b.length) :
    (List.range a.length).map (fun i => a.getD i 0 / b.getD i 0)
      = List.zipWith (fun x y => x / y) a b := by
  induction a generalizing b with
  | nil => rfl
  | cons x a ih =>
    cases b with
    | nil => simp at h
    | cons y b =>
      rw [List.length_cons, List.range_succ_eq_map, List.map_cons, List.map_map,
        List.zipWith_cons_cons, ← ih b (by simpa using h)]
      rfl

theorem filter_range_zip (r : List Int) (ratio : List ℚ) (c : Int)
    (h : r.length = ratio.length) :
    ((List.range r.length).filter (fun j => decide (r[j]? = some c))).map
        (fun j => ratio.getD j 0)
      = ((r.zip ratio).filter (fun p => decide (p.1 = c))).map (fun p => p.2) := by
  induction r generalizing ratio with
  | nil => rfl
  | cons a r ih =>
    cases ratio with
    | nil => simp at h
    | cons q ratio =>
      have ih' := ih ratio (by simpa using h)
      rw [List.length_cons, List.range_succ_eq_map, List.zip_cons_cons, List.filter_cons,
        List.filter_cons, List.filter_map]
      have hf : ((fun j => decide ((a :: r)[j]? = some c)) ∘ Nat.succ)
          = fun j => decide (r[j]? = some c) := by
        funext j
        simp
      have hg : ((fun j => (q :: ratio).getD j 0) ∘ Nat.succ) = fun j => ratio.getD j 0 := by
        funext j
        simp
      by_cases hac : a = c
      · subst hac
        simp only [List.getElem?_cons_zero, decide_True, if_true, List.map_cons,
          List.map_map, hf, hg, ih', List.getD_cons_zero]
      · have : ¬ (some a = some c) := fun h => hac (Option.some.inj h)
        simp only [List.getElem?_cons_zero, this, hac, decide_False, Bool.false_eq_true,
          if_false, List.map_map, hf, hg, ih']

theorem binRatios_eq_zip (r : List Int) (ratio : List ℚ) (c : Int) (hr : r.length = 332)
    (hq : ratio.length = 332) :
    binRatios r ratio c = ((r.zip ratio).filter (fun p => decide (p.1 = c))).map (fun p => p.2) := by
  unfold binRatios members
  rw [← hr]
  exact filter_range_zip r ratio c (by rw [hr, hq])

theorem stepRun_ratio : stepRun.ratio = List.replicate 331 1 ++ [2] := by
  have hs : stepRun = _ := (Except.ok.inj (stepRun_ok.symm.trans
    (setRatio_ok (construct_built stepRows_ok).length_ampMean
      (construct_built (annulus_ok1 1)).length_ampMean)))
  rw [hs]
  simp only []
  have h1 := (construct_built stepRows_ok).length_ampMean
  have h2 := (construct_built (annulus_ok1 1)).length_ampMean
  rw [← h1, range_map_getD_div _ _ (h1.trans h2.symm), (construct_built stepRows_ok).ampMean,
    (construct_built (annulus_ok1 1)).ampMean]
  decide!

theorem stepRun_bin : binRatios stepRun.r stepRun.ratio 130
    = List.replicate 15 1 ++ [2] := by
  have hr := (setRatio_ready (construct_built stepRows_ok) stepRun_ok).2.1
  rw [hr, stepRun_r, stepRun_ratio, binRatios_eq_zip _ _ _ (by rw [List.length_map, length_annulus])
    (by rw [List.length_append, List.length_replicate]; rfl)]
  decide!

/-- C3, at a failing input: the annulus table (39 distinct radii) with amplitude 1 in every row
but the last, where it is 2, against the annulus table with amplitude 1.  The last bin, of
radicand 130, has the ratios 1 (15 times) and 2; its mean 17/16 is reported, its population
variance is 15/256, and `setParameters` reports the root of 15/4096. -/
theorem lastBin_error_stepRows :
    Run.construct name2 (some stepRows) = .ok (sampleRun name2 stepRows) ∧
    setRatio (sampleRun name2 stepRows) (sampleRun name1 (constRows annulus 1))
      = .ok stepRun ∧
    (rSorted stepRun.r).length = 39 ∧
    (rSorted stepRun.r)[38]? = some 130 ∧
    binRatios stepRun.r stepRun.ratio 130
      = List.replicate 15 1 ++ [2] ∧
    popVariance (List.replicate 15 1 ++ [2]) = 15 / 256 ∧
    ∃ run2, setParameters stepRun = .ok run2 ∧
      run2.average[38]? = some (17 / 16) ∧ run2.error[38]? = some (15 / 4096) := by
  obtain ⟨_, hr, _⟩ := setRatio_ready (construct_built stepRows_ok) stepRun_ok
  have h39 : (rSorted (sampleRun name2 stepRows).r).length = 39 := by
    rw [stepRun_r, annulus_distinct]
  have h130 : (rSorted (sampleRun name2 stepRows).r)[38]? = some 130 := by
    rw [stepRun_r]
    decide!
  obtain ⟨run2, h2, _, _, hlast⟩ := setParameters_error name2 stepRows _ _ _ stepRows_ok
    stepRun_ok h39
  obtain ⟨havg, herr⟩ := hlast 130 h130
  rw [stepRun_bin] at havg herr
  refine ⟨stepRows_ok, stepRun_ok, by rw [hr, h39], by rw [hr, h130], stepRun_bin, by decide!,
    run2, h2, ?_, ?_⟩
  · rw [havg]
    decide!
  · rw [herr]
    decide!

/-! ## The pairing of the components and the range of the coordinates -/

theorem grid_paired (c : Int) (h0 : 0 ≤ c) (h1 : c ≤ 483) :
    gridX (483 - c) = -gridX c ∧ gridY (483 - c) = -gridY c := by
  have e1 : Int.tdiv c 22 = c / 22 := Int.tdiv_eq_ediv h0 (by decide)
  have e2 : Int.tdiv (483 - c) 22 = (483 - c) / 22 := Int.tdiv_eq_ediv (by omega) (by decide)
  unfold gridX gridY shift
  rw [e1, e2]
  constructor <;> split_ifs <;> omega

theorem grid_range (c : Int) (h0 : 0 ≤ c) (h1 : c ≤ 483) :
    ((-11 ≤ gridX c ∧ gridX c ≤ -1) ∨ (1 ≤ gridX c ∧ gridX c ≤ 11)) ∧
    ((-11 ≤ gridY c ∧ gridY c ≤ -1) ∨ (1 ≤ gridY c ∧ gridY c ≤ 11)) := by
  have e1 : Int.tdiv c 22 = c / 22 := Int.tdiv_eq_ediv h0 (by decide)
  unfold gridX gridY shift
  rw [e1]
  constructor <;> split_ifs <;> omega

theorem sq_range (x : Int) (h : (-11 ≤ x ∧ x ≤ -1) ∨ (1 ≤ x ∧ x ≤ 11)) :
    1 ≤ x * x ∧ x * x ≤ 121 := by
  rcases h with ⟨ha, hb⟩ | ⟨ha, hb⟩
  · constructor <;> nlinarith
  · constructor <;> nlinarith

theorem Built.getElem?_xyr {rows : List Row} {run : Run} (hb : Built rows run) {i : Nat}
    {c : Int} (hc : run.component[i]? = some c) :
    run.x[i]? = some (gridX c) ∧ run.y[i]? = some (gridY c) ∧ run.r[i]? = some (radius c) := by
  refine ⟨?_, ?_, ?_⟩
  · rw [hb.x, List.getElem?_map, hc]
    rfl
  · rw [hb.y, List.getElem?_map, hc]
    rfl
  · rw [hb.r, List.getElem?_map, hc]
    rfl

/-- C13. For a component number `c` with `0 <= c <= 483`, the component `483 - c` has the
derived coordinates `(-x(c), -y(c))` and hence the same radius as `c`; in a run whose table
holds both, the entries of `x`, `y` and `r` of the two rows are related in this way. -/
theorem construct_paired (filename : List Char) (rows : List Row) (run : Run) (i j : Nat)
    (c : Int) (h : Run.construct filename (some rows) = .ok run)
    (hi : run.component[i]? = some c) (hj : run.component[j]? = some (483 - c))
    (h0 : 0 ≤ c) (h1 : c ≤ 483) :
    gridX (483 - c) = -gridX c ∧ gridY (483 - c) = -gridY c ∧ radius (483 - c) = radius c ∧
    ∃ x y, run.x[i]? = some x ∧ run.y[i]? = some y ∧ run.x[j]? = some (-x) ∧
      run.y[j]? = some (-y) ∧ run.r[i]? = some (x * x + y * y) ∧ run.r[j]? = run.r[i]? := by
  have hb := construct_built h
  obtain ⟨hx, hy⟩ := grid_paired c h0 h1
  have hr : radius (483 - c) = radius c := by
    unfold radius
    rw [hx, hy]
    ring
  obtain ⟨hxi, hyi, hri⟩ := hb.getElem?_xyr hi
  obtain ⟨hxj, hyj, hrj⟩ := hb.getElem?_xyr hj
  refine ⟨hx, hy, hr, gridX c, gridY c, hxi, hyi, ?_, ?_, hri, ?_⟩
  · rw [hxj, hx]
  · rw [hyj, hy]
  · rw [hrj, hri, hr]

/-- Witness of C13: rows 0 and 7 of the annulus table hold the components 163 and 320. -/
theorem construct_paired_witness :
    Run.construct name2 (some (constRows annulus 1)) = .ok (sampleRun name2 (constRows annulus 1)) ∧
      (sampleRun name2 (constRows annulus 1)).component[0]? = some 163 ∧
      (sampleRun name2 (constRows annulus 1)).component[7]? = some (483 - 163) ∧
      gridX (483 - 163) = -gridX 163 :=
  ⟨annulus_ok 1, by decide!, by decide!,
    (construct_paired name2 (constRows annulus 1) (sampleRun name2 (constRows annulus 1)) 0 7 163
      (annulus_ok 1) (by decide!) (by decide!) (by decide) (by decide)).1⟩

/-- C18. For a component number `c` with `0 <= c <= 483`, the derived `x` and `y` each lie in
`-11..-1` or in `1..11`, so neither is 0, and the squared radius `x*x + y*y` lies between 2
and 242; the constructor stores these values for every row holding such a component. -/
theorem construct_coordinates_range (filename : List Char) (rows : List Row) (run : Run)
    (i : Nat) (c : Int) (h : Run.construct filename (some rows) = .ok run)
    (hi : run.component[i]? = some c) (h0 : 0 ≤ c) (h1 : c ≤ 483) :
    ∃ x y, run.x[i]? = some x ∧ run.y[i]? = some y ∧ run.r[i]? = some (x * x + y * y) ∧
      ((-11 ≤ x ∧ x ≤ -1) ∨ (1 ≤ x ∧ x ≤ 11)) ∧ ((-11 ≤ y ∧ y ≤ -1) ∨ (1 ≤ y ∧ y ≤ 11)) ∧
      x ≠ 0 ∧ y ≠ 0 ∧ 2 ≤ x * x + y * y ∧ x * x + y * y ≤ 242 := by
  have hb := construct_built h
  obtain ⟨hxi, hyi, hri⟩ := hb.getElem?_xyr hi
  obtain ⟨hx, hy⟩ := grid_range c h0 h1
  obtain ⟨hx1, hx2⟩ := sq_range _ hx
  obtain ⟨hy1, hy2⟩ := sq_range _ hy
  refine ⟨gridX c, gridY c, hxi, hyi, hri, hx, hy, ?_, ?_, by omega, by omega⟩
  · rcases hx with hx | hx <;> omega
  · rcases hy with hy | hy <;> omega

/-- Witness of C18: row 0 of the annulus table holds component 163. -/
theorem construct_coordinates_range_witness :
    Run.construct name2 (some (constRows annulus 1)) = .ok (sampleRun name2 (constRows annulus 1)) ∧
      (sampleRun name2 (constRows annulus 1)).component[0]? = some 163 ∧
      ∃ x y, (sampleRun name2 (constRows annulus 1)).x[0]? = some x ∧
        (sampleRun name2 (constRows annulus 1)).y[0]? = some y ∧ x ≠ 0 ∧ y ≠ 0 :=
  ⟨annulus_ok 1, by decide!,
    (construct_coordinates_range name2 (constRows annulus 1)
      (sampleRun name2 (constRows annulus 1)) 0 163 (annulus_ok 1) (by decide!) (by decide)
      (by decide)).elim
      (fun x hx => hx.elim (fun y hy => ⟨x, y, hy.1, hy.2.1, hy.2.2.2.2.2.1, hy.2.2.2.2.2.2.1⟩))⟩

/-! ## A run against itself -/

/-- C14. For a run whose 332 amplitude means are all non-zero, `setRatio` with the run itself as
baseline returns a ratio vector of 332 entries, each of them 1. -/
theorem setRatio_self (filename : List Char) (rows : List Row) (run : Run)
    (h : Run.construct filename (some rows) = .ok run)
    (hne : ∀ a ∈ run.ampMean, a ≠ 0) :
    ∃ run', setRatio run run = .ok run' ∧ run'.ratio = List.replicate 332 1 ∧
      ∀ i, i < 332 → run'.ratio[i]? = some 1 := by
  have hlen := (construct_built h).length_ampMean
  have hratio : (List.range num).map (fun i => run.ampMean.getD i 0 / run.ampMean.getD i 0)
      = List.replicate num 1 := by
    rw [List.eq_replicate_iff]
    refine ⟨by rw [List.length_map, List.length_range], ?_⟩
    intro b hb
    obtain ⟨i, hi, rfl⟩ := List.mem_map.mp hb
    have hlt : i < run.ampMean.length := by
      rw [hlen]
      exact List.mem_range.mp hi
    have hget := getElem?_getD_of_lt run.ampMean 0 i hlt
    have hmem : run.ampMean.getD i 0 ∈ run.ampMean := List.mem_iff_getElem?.mpr ⟨i, hget⟩
    exact div_self (hne _ hmem)
  refine ⟨_, setRatio_ok hlen hlen, hratio, ?_⟩
  intro i hi
  show ((List.range num).map _)[i]? = some 1
  rw [hratio, List.getElem?_replicate, if_pos (show i < num from hi)]

theorem constRows_ampMean {filename : List Char} {ids : List Int} {amp : ℚ} {run : Run}
    (h : Run.construct filename (some (constRows ids amp)) = .ok run) :
    ∀ a ∈ run.ampMean, a = amp := by
  intro a ha
  rw [(construct_built h).ampMean, constRows, List.map_take, List.map_map] at ha
  have := List.mem_of_mem_take ha
  obtain ⟨c, _, hc⟩ := List.mem_map.mp this
  exact hc.symm

/-- Witness of C14: the annulus table with amplitude 150. -/
theorem setRatio_self_witness :
    Run.construct name2 (some (constRows annulus 150))
        = .ok (sampleRun name2 (constRows annulus 150)) ∧
      (∀ a ∈ (sampleRun name2 (constRows annulus 150)).ampMean, a ≠ 0) ∧
      ∃ run', setRatio (sampleRun name2 (constRows annulus 150))
          (sampleRun name2 (constRows annulus 150)) = .ok run' ∧
        run'.ratio = List.replicate 332 1 :=
  ⟨annulus_ok 150,
    fun a ha => by rw [constRows_ampMean (annulus_ok 150) a ha]; decide,
    (setRatio_self name2 (constRows annulus 150) (sampleRun name2 (constRows annulus 150))
      (annulus_ok 150)
      (fun a ha => by rw [constRows_ampMean (annulus_ok 150) a ha]; decide)).elim
      (fun run' hr => ⟨run', hr.1, hr.2.1⟩)⟩

/-! ## The number of bins -/

theorem orderRatios_take (run : Run) (hr : run.r.length = num) (hq : run.ratio.length = num) :
    ∀ m, m ≤ run.rOrderedCut.length → ∀ acc : List ℚ,
      (List.range m).foldlM (fun acc i =>
        (List.range num).foldlM (pushIfMatch run i) acc) acc
        = (.ok (acc ++ (run.rOrderedCut.take m).flatMap (binRatios run.r run.ratio)) :
            Except Fault (List ℚ)) := by
  intro m
  induction m with
  | zero => intro _ acc; simp [pure, Except.pure]
  | succ m ih =>
    intro hm acc
    have hlt : m < run.rOrderedCut.length := by omega
    have hcm : run.rOrderedCut[m]? = some run.rOrderedCut[m] := List.getElem?_eq_getElem hlt
    rw [List.range_succ, List.foldlM_append, ih (by omega) acc]
    simp only [bind, Except.bind, List.foldlM_cons, List.foldlM_nil]
    rw [orderRatios_inner run m _ hcm hr hq num (le_refl _)]
    simp only [pure, Except.pure, List.take_succ, hcm, Option.toList_some,
      List.flatMap_append, List.flatMap_cons, List.flatMap_nil, List.append_nil,
      List.append_assoc]
    rfl

theorem pushIfMatch_unwritten (run : Run) (i j : Nat) (acc : List ℚ)
    (hi : run.rOrderedCut.length ≤ i) :
    pushIfMatch run i acc j = .error .indeterminate := by
  have hnone : run.rOrderedCut[i]? = none := List.getElem?_eq_none hi
  unfold pushIfMatch read
  rw [hnone]
  rfl

theorem foldlM_pushIfMatch_unwritten (run : Run) (i : Nat) (acc : List ℚ)
    (hi : run.rOrderedCut.length ≤ i) :
    (List.range num).foldlM (pushIfMatch run i) acc = .error .indeterminate := by
  have hnum : List.range num = 0 :: (List.range 331).map Nat.succ := List.range_succ_eq_map 331
  rw [hnum, List.foldlM_cons, pushIfMatch_unwritten run i 0 acc hi]
  rfl

theorem orderRatios_unwritten (run : Run) (hcut : run.rOrderedCut.length < 39)
    (hr : run.r.length = num) (hq : run.ratio.length = num) :
    orderRatios run = .error .indeterminate := by
  have key : ∀ m, run.rOrderedCut.length < m → ∀ acc : List ℚ,
      (List.range m).foldlM (fun acc i =>
        (List.range num).foldlM (pushIfMatch run i) acc) acc
        = (.error .indeterminate : Except Fault (List ℚ)) := by
    intro m
    induction m with
    | zero => intro h; omega
    | succ m ih =>
      intro hm acc
      rw [List.range_succ, List.foldlM_append]
      by_cases hlt : run.rOrderedCut.length < m
      · rw [ih hlt acc]
        rfl
      · have hle : m ≤ run.rOrderedCut.length := by omega
        rw [orderRatios_take run hr hq m hle acc]
        simp only [bind, Except.bind, List.foldlM_cons, List.foldlM_nil]
        rw [foldlM_pushIfMatch_unwritten run m _ (by omega)]
  exact key 39 hcut run.orderedRatios

theorem binGroups_unwritten (run : Run) (h : Ready run) (hd : (rSorted run.r).length < 39) :
    binGroups run = .error .indeterminate ∧ setParameters run = .error .indeterminate := by
  have hcut : run.rOrderedCut.length < 39 := by
    rw [h.rOrderedCut, List.length_take]
    omega
  have ho := orderRatios_unwritten run hcut h.r_len h.ratio_len
  constructor
  · unfold binGroups
    rw [ho]
    rfl
  · unfold setParameters
    rw [ho]
    rfl

theorem blocks_nonempty (r : List Int) (ratio : List ℚ) (hr : r.length = 332) :
    ∀ b ∈ blocks r ratio, 1 ≤ b.2.length := by
  intro b hb
  unfold blocks at hb
  obtain ⟨c, hc, rfl⟩ := List.mem_map.mp hb
  have hpos := count_pos_of_mem_rSorted (List.mem_of_mem_take hc)
  rw [← length_binRatios r ratio c hr] at hpos
  exact hpos

theorem setParameters_lengths (run : Run) (h : Ready run) (hd : 39 ≤ (rSorted run.r).length) :
    run.rOrderedCut.length = 39 ∧
    ∃ groups run', binGroups run = .ok groups ∧ setParameters run = .ok run' ∧
      groups.length = 39 ∧ run'.average = groups.map Group.avg ∧
      run'.error = groups.map Group.std ∧ run'.average.length = 39 ∧ run'.error.length = 39 ∧
      ∀ g ∈ groups, 1 ≤ g.count := by
  have hg := binGroups_ready run h hd
  obtain ⟨run', h2, havg, herr, _, _, _⟩ := setParameters_of_binGroups hg
  have hbl : (blocks run.r run.ratio).length = 39 := by
    rw [blocks, List.length_map, List.length_take]
    omega
  have hgl : (closures (blocks run.r run.ratio) (decide (beyond run.r = []))).length = 39 := by
    rw [length_closures, hbl]
  rw [h.average, List.nil_append] at havg
  rw [h.error, List.nil_append] at herr
  refine ⟨by rw [h.rOrderedCut, List.length_take]; omega, _, run', hg, h2, hgl, havg, herr,
    by rw [havg, List.length_map, hgl], by rw [herr, List.length_map, hgl], ?_⟩
  intro g hgm
  have hc : g.count ∈ (closures (blocks run.r run.ratio) (decide (beyond run.r = []))).map
      Group.count := List.mem_map.mpr ⟨g, hgm, rfl⟩
  rw [closures_count] at hc
  obtain ⟨b, hb, hbc⟩ := List.mem_map.mp hc
  rw [← hbc]
  exact blocks_nonempty run.r run.ratio h.r_len b hb

theorem ready_zeroIds :
    Run.construct name2 (some (constRows zeroIds 1))
        = .ok (sampleRun name2 (constRows zeroIds 1)) ∧
      setRatio (sampleRun name2 (constRows zeroIds 1)) (sampleRun name2 (constRows zeroIds 1))
        = .ok (runOf (setRatio (sampleRun name2 (constRows zeroIds 1))
            (sampleRun name2 (constRows zeroIds 1)))) ∧
      (rSorted (sampleRun name2 (constRows zeroIds 1)).r).length = 1 := by
  have hlen : zeroIds.length = 332 := List.length_replicate _ _
  have h0 : Run.construct name2 (some (constRows zeroIds 1))
      = .ok (sampleRun name2 (constRows zeroIds 1)) :=
    sampleRun_ok parse_name2 (by rw [length_constRows, hlen]; exact le_refl _)
  have hb := construct_built h0
  refine ⟨h0, setRatio_runOf hb.length_ampMean hb.length_ampMean, ?_⟩
  rw [(constRows_r h0 hlen).2]
  decide!

/-- C12, as stated, fails: the table with the component numbers 0, 1, ..., 331 has 61 distinct
radii, but `rOrderedCut` holds 39 entries and `setParameters` produces 39 averages and 39
standard deviations; the table with component 0 in every row has one distinct radius and
`setParameters` produces no average, it reads an entry of `rOrderedCut` that was never
written. -/
theorem bins_firstIds :
    (∃ run0 run1 run2,
      Run.construct name2 (some (constRows firstIds 1)) = .ok run0 ∧
      setRatio run0 run0 = .ok run1 ∧ (rSorted run0.r).length = 61 ∧
      run1.rOrderedCut.length = 39 ∧ setParameters run1 = .ok run2 ∧
      run2.average.length = 39 ∧ run2.error.length = 39) ∧
    (∃ run0 run1,
      Run.construct name2 (some (constRows zeroIds 1)) = .ok run0 ∧
      setRatio run0 run0 = .ok run1 ∧ (rSorted run0.r).length = 1 ∧
      setParameters run1 = .error .indeterminate) := by
  constructor
  · obtain ⟨h0, h1, h61⟩ := ready_firstIds
    obtain ⟨hready, hr, _⟩ := setRatio_ready (construct_built h0) h1
    obtain ⟨hcut, _, run2, _, h2, _, _, _, ha, he, _⟩ :=
      setParameters_lengths _ hready (by rw [hr, h61]; decide)
    exact ⟨_, _, run2, h0, h1, h61, hcut, h2, ha, he⟩
  · obtain ⟨h0, h1, hone⟩ := ready_zeroIds
    obtain ⟨hready, hr, _⟩ := setRatio_ready (construct_built h0) h1
    exact ⟨_, _, h0, h1, hone, (binGroups_unwritten _ hready (by rw [hr, hone]; decide)).2⟩

/-- C12, amended. For every run, with `d` the number of distinct radii among its 332
components, the array `rOrderedCut` holds the first `min(39, d)` distinct radii; when `d` is
at least 39, `setParameters` produces exactly 39 averages and 39 standard deviations, and when
`d` is below 39 it reads an entry of `rOrderedCut` that was never written and has no result. -/
theorem setParameters_bin_number (filename : List Char) (rows : List Row)
    (lowest run0 run1 : Run)
    (h0 : Run.construct filename (some rows) = .ok run0)
    (h1 : setRatio run0 lowest = .ok run1) :
    run1.rOrderedCut = (rSorted run0.r).take 39 ∧
    run1.rOrderedCut.length = min 39 (rSorted run0.r).length ∧
    (39 ≤ (rSorted run0.r).length →
      ∃ run2, setParameters run1 = .ok run2 ∧ run2.average.length = 39 ∧
        run2.error.length = 39) ∧
    ((rSorted run0.r).length < 39 → setParameters run1 = .error .indeterminate) := by
  obtain ⟨hready, hr, _⟩ := setRatio_ready (construct_built h0) h1
  refine ⟨by rw [hready.rOrderedCut, hr], by rw [hready.rOrderedCut, hr, List.length_take],
    ?_, ?_⟩
  · intro hd
    obtain ⟨_, _, run2, _, h2, _, _, _, ha, he, _⟩ :=
      setParameters_lengths _ hready (by rw [hr]; exact hd)
    exact ⟨run2, h2, ha, he⟩
  · intro hd
    exact (binGroups_unwritten _ hready (by rw [hr]; exact hd)).2

/-- Witness of the amended C12: the annulus table with amplitude 150 against amplitude 100. -/
theorem setParameters_bin_number_witness :
    Run.construct name2 (some (constRows annulus 150))
        = .ok (sampleRun name2 (constRows annulus 150)) ∧
      setRatio (sampleRun name2 (constRows annulus 150)) (sampleRun name1 (constRows annulus 100))
        = .ok (runOf (setRatio (sampleRun name2 (constRows annulus 150))
            (sampleRun name1 (constRows annulus 100)))) ∧
      (runOf (setRatio (sampleRun name2 (constRows annulus 150))
        (sampleRun name1 (constRows annulus 100)))).rOrderedCut.length
          = min 39 (rSorted (sampleRun name2 (constRows annulus 150)).r).length :=
  ⟨annulus_ok 150, annulus_setRatio 150 100,
    (setParameters_bin_number name2 (constRows annulus 150)
      (sampleRun name1 (constRows annulus 100)) (sampleRun name2 (constRows annulus 150))
      (runOf (setRatio (sampleRun name2 (constRows annulus 150))
        (sampleRun name1 (constRows annulus 100))))
      (annulus_ok 150) (annulus_setRatio 150 100)).2.1⟩

/-! ## The divisors -/

theorem binLoop_unmatched (cut S : List Int) (O : List ℚ) (trk fuel : Nat) (v ro : Int)
    (hcut : cut[trk]? = some v) (hS : S[331]? = some ro) (hne : v ≠ ro) :
    binLoop cut S O trk 331 (fuel + 1) 331 0 0
      = .ok (331, some { count := 0, avg := 0, std := 0 }) := by
  unfold binLoop
  rw [if_pos (by decide)]
  simp only [bind, Except.bind, read_eq_ok hcut, read_eq_ok hS, if_neg hne]
  simp [closeGroup, getError, bind, Except.bind, pure, Except.pure]

theorem sorted_zeroIds :
    sort (zeroIds.map radius) = List.replicate 332 242 ∧
      (rSorted (zeroIds.map radius)).take 39 = [242] := by
  constructor <;> decide!

/-- C15, as stated, fails: the table with component 0 in every row has one distinct radius, so
the constructor writes `rOrderedCut[0]` only and `setParameters` reads entries of `rOrderedCut`
that were never written.  With any value other than the radius in `rOrderedCut[1]`, the bin
loop for `trk = 0` closes a group of 332 members and leaves `last` at 331, and the bin loop for
`trk = 1` then closes a group with `count = 0`: `sum/count` and `var /= count` divide by
zero. -/
theorem zero_count_zeroIds :
    ∃ run0 run1,
      Run.construct name2 (some (constRows zeroIds 1)) = .ok run0 ∧
      setRatio run0 run0 = .ok run1 ∧
      run1.rOrderedCut = [242] ∧ run1.rOrdered = List.replicate 332 242 ∧
      binGroups run1 = .error .indeterminate ∧
      ∀ (v : Int) (O : List ℚ), v ≠ 242 → O.length = 332 →
        (∃ g, binLoop (run1.rOrderedCut ++ [v]) run1.rOrdered O 0 0 num 0 0 0
            = .ok (331, some g) ∧ g.count = 332) ∧
        (∃ g, binLoop (run1.rOrderedCut ++ [v]) run1.rOrdered O 1 331 num 331 0 0
            = .ok (331, some g) ∧ g.count = 0) := by
  obtain ⟨h0, h1, hone⟩ := ready_zeroIds
  obtain ⟨hready, hr, _⟩ := setRatio_ready (construct_built h0) h1
  have hr0 := (constRows_r h0 (List.length_replicate _ _)).2
  have hcut : (runOf (setRatio (sampleRun name2 (constRows zeroIds 1))
      (sampleRun name2 (constRows zeroIds 1)))).rOrderedCut = [242] := by
    rw [hready.rOrderedCut, hr, hr0, sorted_zeroIds.2]
  have hord : (runOf (setRatio (sampleRun name2 (constRows zeroIds 1))
      (sampleRun name2 (constRows zeroIds 1)))).rOrdered = List.replicate 332 242 := by
    rw [hready.rOrdered, hr, hr0, sorted_zeroIds.1]
  refine ⟨_, _, h0, h1, hcut, hord,
    (binGroups_unwritten _ hready (by rw [hr, hone]; decide)).1, ?_⟩
  intro v O hv hO
  rw [hcut, hord]
  constructor
  · refine ⟨lastGroup O, ?_, hO⟩
    have h := binLoop_block ([242] ++ [v]) (List.replicate 332 242) O 0 0 242 O [] [] [] []
      rfl (by rw [hO, List.nil_append, List.append_nil])
      (by rw [List.nil_append, List.append_nil]) rfl rfl (List.length_replicate _ _)
      (by rw [List.head?_nil]; exact Option.noConfusion)
      332 0 num (by rw [hO]) (Nat.zero_le _) (fun _ => by rw [hO]; decide) (le_refl _)
    rw [if_pos rfl, Nat.add_zero, List.take_zero, List.sum_nil] at h
    exact h
  · exact ⟨_, binLoop_unmatched _ _ O 1 331 v 242 rfl
      (by rw [List.getElem?_replicate]; rfl) hv, rfl⟩

/-- C15, amended. For a run with at least 39 distinct radii, whose distinct radii and sorted
radii the constructor derived from the same components, `setParameters` closes 39 groups and
every one of them has a count of at least 1, so that the divisor of `sum/count` and of
`var /= count` is not zero. -/
theorem binGroups_count_pos (filename : List Char) (rows : List Row) (lowest run0 run1 : Run)
    (h0 : Run.construct filename (some rows) = .ok run0)
    (h1 : setRatio run0 lowest = .ok run1)
    (hd : 39 ≤ (rSorted run0.r).length) :
    ∃ groups run2, binGroups run1 = .ok groups ∧ groups.length = 39 ∧
      setParameters run1 = .ok run2 ∧ run2.average = groups.map Group.avg ∧
      run2.error = groups.map Group.std ∧
      ∀ g ∈ groups, 1 ≤ g.count ∧ (g.count : ℚ) ≠ 0 := by
  obtain ⟨hready, hr, _⟩ := setRatio_ready (construct_built h0) h1
  obtain ⟨_, groups, run2, hg, h2, hl, ha, he, _, _, hpos⟩ :=
    setParameters_lengths _ hready (by rw [hr]; exact hd)
  refine ⟨groups, run2, hg, hl, h2, ha, he, ?_⟩
  intro g hgm
  have h1le := hpos g hgm
  exact ⟨h1le, by exact_mod_cast (by omega : g.count ≠ 0)⟩

/-- Witness of C15: the annulus table with amplitude 150 against amplitude 100. -/
theorem binGroups_count_pos_witness :
    Run.construct name2 (some (constRows annulus 150))
        = .ok (sampleRun name2 (constRows annulus 150)) ∧
      setRatio (sampleRun name2 (constRows annulus 150)) (sampleRun name1 (constRows annulus 100))
        = .ok (runOf (setRatio (sampleRun name2 (constRows annulus 150))
            (sampleRun name1 (constRows annulus 100)))) ∧
      39 ≤ (rSorted (sampleRun name2 (constRows annulus 150)).r).length ∧
      ∃ groups, binGroups (runOf (setRatio (sampleRun name2 (constRows annulus 150))
          (sampleRun name1 (constRows annulus 100)))) = .ok groups ∧ groups.length = 39 ∧
        ∀ g ∈ groups, 1 ≤ g.count :=
  ⟨annulus_ok 150, annulus_setRatio 150 100, by rw [annulus_39 (annulus_ok 150)],
    (binGroups_count_pos name2 (constRows annulus 150)
      (sampleRun name1 (constRows annulus 100)) (sampleRun name2 (constRows annulus 150))
      (runOf (setRatio (sampleRun name2 (constRows annulus 150))
        (sampleRun name1 (constRows annulus 100))))
      (annulus_ok 150) (annulus_setRatio 150 100)
      (by rw [annulus_39 (annulus_ok 150)])).elim
      (fun groups hg => hg.elim (fun _ hr => ⟨groups, hr.1, hr.2.1,
        fun g hgm => (hr.2.2.2.2.2 g hgm).1⟩))⟩

/-! ## The re-ordered ratios -/

theorem perm_flatMap_filter (L : List (Int × ℚ)) :
    ∀ U : List Int, U.Nodup → (∀ p ∈ L, p.1 ∈ U) →
      (U.flatMap (fun c => L.filter (fun p => decide (p.1 = c)))).Perm L := by
  induction L with
  | nil =>
    intro U _ _
    have hnil : ∀ V : List Int,
        V.flatMap (fun c => ([] : List (Int × ℚ)).filter (fun p => decide (p.1 = c))) = [] := by
      intro V
      induction V with
      | nil => rfl
      | cons a t ih => rw [List.flatMap_cons, ih]; rfl
    rw [hnil U]
  | cons p L ih =>
    intro U hU hall
    obtain ⟨s, t, hst⟩ := List.append_of_mem (hall p (List.mem_cons_self _ _))
    have hnd : (s ++ p.1 :: t).Nodup := hst ▸ hU
    have hs : p.1 ∉ s := fun h =>
      (List.nodup_append.mp hnd).2.2 h (List.mem_cons_self _ _)
    have ht : p.1 ∉ t := (List.nodup_cons.mp (List.nodup_append.mp hnd).2.1).1
    have hcong : ∀ v : List Int, p.1 ∉ v →
        v.flatMap (fun c => (p :: L).filter (fun q => decide (q.1 = c)))
          = v.flatMap (fun c => L.filter (fun q => decide (q.1 = c))) := by
      intro v hv
      apply flatMap_congr'
      intro c hc
      have hne : ¬ p.1 = c := fun h => hv (h ▸ hc)
      rw [List.filter_cons, if_neg (by simpa using hne)]
    have ih' := ih U hU (fun q hq => hall q (List.mem_cons_of_mem _ hq))
    rw [hst] at ih' ⊢
    rw [List.flatMap_append, List.flatMap_cons, hcong s hs, hcong t ht, List.filter_cons,
      if_pos (by simp)]
    rw [List.flatMap_append, List.flatMap_cons] at ih'
    refine (List.perm_middle).trans (List.Perm.cons p ?_)
    simpa [List.append_assoc] using ih'

theorem zip_flatMap {α : Type} (f : α → List Int) (g : α → List ℚ) :
    ∀ U : List α, (∀ c ∈ U, (f c).length = (g c).length) →
      (U.flatMap f).zip (U.flatMap g) = U.flatMap (fun c => (f c).zip (g c)) := by
  intro U
  induction U with
  | nil => intro _; rfl
  | cons a t ih =>
    intro h
    rw [List.flatMap_cons, List.flatMap_cons, List.flatMap_cons,
      List.zip_append (h a (List.mem_cons_self _ _)),
      ih (fun c hc => h c (List.mem_cons_of_mem _ hc))]

theorem zip_replicate_filter (L : List (Int × ℚ)) (c : Int) :
    (List.replicate ((L.filter (fun p => decide (p.1 = c))).map (fun p => p.2)).length c).zip
        ((L.filter (fun p => decide (p.1 = c))).map (fun p => p.2))
      = L.filter (fun p => decide (p.1 = c)) := by
  induction L with
  | nil => rfl
  | cons p L ih =>
    by_cases hp : p.1 = c
    · rw [List.filter_cons, if_pos (by simpa using hp), List.map_cons, List.length_cons,
        List.replicate_succ, List.zip_cons_cons, ih, ← hp]
    · rw [List.filter_cons, if_neg (by simpa using hp), ih]

theorem orderRatios_zip_perm (run : Run) (h : Ready run) (hd : (rSorted run.r).length = 39) :
    orderRatios run = .ok ((rSorted run.r).flatMap (binRatios run.r run.ratio)) ∧
    ((rSorted run.r).flatMap (binRatios run.r run.ratio)).length = 332 ∧
    ((sort run.r).zip ((rSorted run.r).flatMap (binRatios run.r run.ratio))).Perm
      (run.r.zip run.ratio) := by
  have hr : run.r.length = 332 := h.r_len
  have hq : run.ratio.length = 332 := h.ratio_len
  have htake : (rSorted run.r).take 39 = rSorted run.r :=
    List.take_of_length_le (by omega)
  have hcut : 39 ≤ run.rOrderedCut.length := by
    rw [h.rOrderedCut, List.length_take]
    omega
  have hord : orderRatios run = .ok ((rSorted run.r).flatMap (binRatios run.r run.ratio)) := by
    rw [orderRatios_ok run hcut h.r_len h.ratio_len, h.orderedRatios, h.rOrderedCut,
      List.take_take, Nat.min_self, htake]
    rfl
  have hS : sort run.r
      = (rSorted run.r).flatMap (fun c => List.replicate (binRatios run.r run.ratio c).length c) := by
    have := sorted_eq_blocks (sort run.r) (sort_sorted run.r)
    rw [show unique (sort run.r) = rSorted run.r from rfl] at this
    rw [flatMap_congr' (fun c _ => by rw [length_binRatios run.r run.ratio c hr])]
    exact this
  have hzip : (sort run.r).zip ((rSorted run.r).flatMap (binRatios run.r run.ratio))
      = (rSorted run.r).flatMap
          (fun c => (run.r.zip run.ratio).filter (fun p => decide (p.1 = c))) := by
    conv_lhs => rw [hS]
    rw [zip_flatMap _ _ _ (fun c _ => by rw [List.length_replicate])]
    apply flatMap_congr'
    intro c _
    rw [binRatios_eq_zip run.r run.ratio c hr hq]
    exact zip_replicate_filter _ c
  have hperm : ((sort run.r).zip ((rSorted run.r).flatMap (binRatios run.r run.ratio))).Perm
      (run.r.zip run.ratio) := by
    rw [hzip]
    exact perm_flatMap_filter _ _ (rSorted_nodup run.r)
      (fun p hp => by
        obtain ⟨a, b⟩ := p
        exact mem_rSorted.mpr (List.of_mem_zip hp).1)
  refine ⟨hord, ?_, hperm⟩
  have hlen : ((rSorted run.r).flatMap (binRatios run.r run.ratio)).length
      = (sort run.r).length := by
    conv_rhs => rw [hS]
    clear hzip hperm hord hS
    induction rSorted run.r with
    | nil => rfl
    | cons a t ih =>
      rw [List.flatMap_cons, List.flatMap_cons, List.length_append, List.length_append, ih,
        List.length_replicate]
  rw [hlen, length_sort, hr]

theorem setParameters_orderedRatios {run : Run} {ordered : List ℚ} {groups : List Group}
    (ho : orderRatios run = .ok ordered) (hg : binGroups run = .ok groups) :
    ∃ run', setParameters run = .ok run' ∧ run'.orderedRatios = ordered ∧
      run'.orderedRatioArray = (ordered ++ run.orderedRatioArray.drop ordered.length).take num := by
  unfold binGroups at hg
  unfold setParameters
  rw [ho] at hg ⊢
  simp only [bind, Except.bind] at hg ⊢
  rw [hg]
  exact ⟨_, rfl, rfl, rfl⟩

/-- C17. For a run with exactly 39 distinct radii, the first loop nest of `setParameters` on
the freshly constructed run produces a re-ordered ratio sequence of length 332, stored in
`orderedRatios` and `orderedRatioArray`, that is a permutation of the ratio vector and is
aligned with the sorted radius array: pairing `rOrdered` with it gives a permutation of the
pairs (radius, ratio) of the components, so that entry `k` is the ratio of a component whose
radius equals `rOrdered[k]`. -/
theorem orderRatios_aligned (filename : List Char) (rows : List Row) (lowest run0 run1 : Run)
    (h0 : Run.construct filename (some rows) = .ok run0)
    (h1 : setRatio run0 lowest = .ok run1)
    (hd : (rSorted run0.r).length = 39) :
    ∃ ordered run2, orderRatios run1 = .ok ordered ∧ setParameters run1 = .ok run2 ∧
      run2.orderedRatios = ordered ∧ run2.orderedRatioArray = ordered ∧
      ordered.length = 332 ∧ ordered.Perm run1.ratio ∧
      (run1.rOrdered.zip ordered).Perm (run1.r.zip run1.ratio) ∧
      ∀ k, k < 332 → ∃ j q c, j < 332 ∧ ordered[k]? = some q ∧ run1.ratio[j]? = some q ∧
        run1.rOrdered[k]? = some c ∧ run1.r[j]? = some c := by
  obtain ⟨hready, hr, _⟩ := setRatio_ready (construct_built h0) h1
  have hd' : (rSorted run1.r).length = 39 := by rw [hr, hd]
  obtain ⟨hord, hlen, hperm⟩ := orderRatios_zip_perm run1 hready hd'
  have hg := binGroups_ready run1 hready (by rw [hd'])
  obtain ⟨run2, h2, ho2, hoa⟩ := setParameters_orderedRatios hord hg
  have hSlen : (sort run1.r).length = 332 := by rw [length_sort, hready.r_len]; rfl
  refine ⟨_, run2, hord, h2, ho2, ?_, hlen, ?_, by rw [hready.rOrdered]; exact hperm, ?_⟩
  · rw [hoa, hready.orderedRatioArray, List.drop_nil, List.append_nil]
    exact List.take_of_length_le (by rw [hlen]; exact le_refl _)
  · have := hperm.map Prod.snd
    rw [List.map_snd_zip _ _ (by rw [hlen, hSlen]),
      List.map_snd_zip _ _ (by rw [hready.r_len, hready.ratio_len])] at this
    exact this
  · intro k hk
    have hk1 : k < ((rSorted run1.r).flatMap (binRatios run1.r run1.ratio)).length := by
      rw [hlen]; exact hk
    have hk2 : k < (sort run1.r).length := by rw [hSlen]; exact hk
    have hz : ((sort run1.r).zip ((rSorted run1.r).flatMap (binRatios run1.r run1.ratio)))[k]?
        = some ((sort run1.r)[k], ((rSorted run1.r).flatMap (binRatios run1.r run1.ratio))[k]) :=
      List.getElem?_zip_eq_some.mpr
        ⟨List.getElem?_eq_getElem hk2, List.getElem?_eq_getElem hk1⟩
    have hmem := hperm.mem_iff.mp (List.mem_iff_getElem?.mpr ⟨k, hz⟩)
    obtain ⟨j, hj⟩ := List.mem_iff_getElem?.mp hmem
    obtain ⟨hjr, hjq⟩ := List.getElem?_zip_eq_some.mp hj
    have hjlt : j < 332 := by
      have := (List.getElem?_eq_some_iff.mp hjr).1
      rw [hready.r_len] at this
      exact this
    exact ⟨j, _, _, hjlt, List.getElem?_eq_getElem hk1, hjq,
      by rw [hready.rOrdered]; exact List.getElem?_eq_getElem hk2, hjr⟩

/-- Witness of C17: the annulus table with amplitude 150 against amplitude 100. -/
theorem orderRatios_aligned_witness :
    Run.construct name2 (some (constRows annulus 150))
        = .ok (sampleRun name2 (constRows annulus 150)) ∧
      setRatio (sampleRun name2 (constRows annulus 150)) (sampleRun name1 (constRows annulus 100))
        = .ok (runOf (setRatio (sampleRun name2 (constRows annulus 150))
            (sampleRun name1 (constRows annulus 100)))) ∧
      (rSorted (sampleRun name2 (constRows annulus 150)).r).length = 39 ∧
      ∃ ordered, orderRatios (runOf (setRatio (sampleRun name2 (constRows annulus 150))
          (sampleRun name1 (constRows annulus 100)))) = .ok ordered ∧ ordered.length = 332 :=
  ⟨annulus_ok 150, annulus_setRatio 150 100, annulus_39 (annulus_ok 150),
    (orderRatios_aligned name2 (constRows annulus 150) (sampleRun name1 (constRows annulus 100))
      (sampleRun name2 (constRows annulus 150))
      (runOf (setRatio (sampleRun name2 (constRows annulus 150))
        (sampleRun name1 (constRows annulus 100))))
      (annulus_ok 150) (annulus_setRatio 150 100) (annulus_39 (annulus_ok 150))).elim
      (fun ordered h => h.elim (fun _ hr => ⟨ordered, hr.1, hr.2.2.2.2.1⟩))⟩

/-! ## The bubble sort -/

theorem lowestTest_eq_false {a b : Run} (h : a.runNumberInt ≤ b.runNumberInt) :
    lowestTest a b = false := by
  unfold lowestTest
  exact decide_eq_false (by omega)

theorem bubbleFrom_sorted (a : Run) (t : List Run)
    (h : (a :: t).Sorted (fun a b => a.runNumberInt ≤ b.runNumberInt)) :
    bubbleFrom a t = (a :: t, false) := by
  induction t generalizing a with
  | nil => rfl
  | cons b t ih =>
    have hab : a.runNumberInt ≤ b.runNumberInt :=
      List.rel_of_sorted_cons h b (List.mem_cons_self _ _)
    unfold bubbleFrom
    rw [lowestTest_eq_false hab, ih b h.of_cons]
    rfl

theorem bubbleFrom_flag (a : Run) (t : List Run) (h : (bubbleFrom a t).2 = false) :
    (a :: t).Sorted (fun a b => a.runNumberInt ≤ b.runNumberInt) := by
  induction t generalizing a with
  | nil => exact List.sorted_singleton a
  | cons b t ih =>
    unfold bubbleFrom at h
    by_cases hab : lowestTest a b = true
    · rw [if_pos hab] at h
      cases h
    · rw [if_neg hab] at h
      have hbt := ih b h
      have hle : a.runNumberInt ≤ b.runNumberInt := by
        unfold lowestTest at hab
        simpa using hab
      refine List.sorted_cons.mpr ⟨?_, hbt⟩
      intro x hx
      rcases List.mem_cons.mp hx with hxb | hxt
      · rw [hxb]; exact hle
      · exact le_trans hle (List.rel_of_sorted_cons hbt x hxt)

theorem bubbleFrom_last (a : Run) (t : List Run) :
    ∃ init m, (bubbleFrom a t).1 = init ++ [m] ∧
      ∀ x ∈ a :: t, x.runNumberInt ≤ m.runNumberInt := by
  induction t generalizing a with
  | nil => exact ⟨[], a, rfl, by simp⟩
  | cons b t ih =>
    unfold bubbleFrom
    by_cases hab : lowestTest a b = true
    · obtain ⟨init, m, hres, hmax⟩ := ih a
      have hgt : b.runNumberInt < a.runNumberInt := by
        unfold lowestTest at hab
        simpa using hab
      refine ⟨b :: init, m, by rw [if_pos hab]; simp [hres], ?_⟩
      intro x hx
      have ha := hmax a (List.mem_cons_self _ _)
      rcases List.mem_cons.mp hx with hxa | hx'
      · rw [hxa]; exact ha
      · rcases List.mem_cons.mp hx' with hxb | hxt
        · rw [hxb]; omega
        · exact hmax x (List.mem_cons_of_mem _ hxt)
    · obtain ⟨init, m, hres, hmax⟩ := ih b
      have hle : a.runNumberInt ≤ b.runNumberInt := by
        unfold lowestTest at hab
        simpa using hab
      refine ⟨a :: init, m, by rw [if_neg hab]; simp [hres], ?_⟩
      intro x hx
      rcases List.mem_cons.mp hx with hxa | hx'
      · rw [hxa]; exact le_trans hle (hmax b (List.mem_cons_self _ _))
      · exact hmax x hx'

theorem bubbleFrom_append (a : Run) (t back : List Run)
    (hback : back.Sorted (fun a b => a.runNumberInt ≤ b.runNumberInt))
    (hcross : ∀ x ∈ a :: t, ∀ y ∈ back, x.runNumberInt ≤ y.runNumberInt) :
    bubbleFrom a (t ++ back) = ((bubbleFrom a t).1 ++ back, (bubbleFrom a t).2) := by
  induction t generalizing a with
  | nil =>
    rw [List.nil_append, bubbleFrom_sorted a back
      (List.sorted_cons.mpr ⟨fun y hy => hcross a (List.mem_cons_self _ _) y hy, hback⟩)]
    rfl
  | cons b t ih =>
    rw [List.cons_append]
    unfold bubbleFrom
    by_cases hab : lowestTest a b = true
    · rw [if_pos hab, if_pos hab, ih a (fun x hx y hy => hcross x (by
        rcases List.mem_cons.mp hx with h | h
        · rw [h]; exact List.mem_cons_self _ _
        · exact List.mem_cons_of_mem _ (List.mem_cons_of_mem _ h)) y hy)]
      rfl
    · rw [if_neg hab, if_neg hab, ih b (fun x hx y hy =>
        hcross x (List.mem_cons_of_mem _ hx) y hy)]
      rfl

theorem filter_swap (a b : Run) (l : List Run) (k : Int)
    (hne : a.runNumberInt ≠ b.runNumberInt) :
    (b :: a :: l).filter (fun x => decide (x.runNumberInt = k))
      = (a :: b :: l).filter (fun x => decide (x.runNumberInt = k)) := by
  by_cases ha : a.runNumberInt = k
  · have hb : ¬ b.runNumberInt = k := fun h => hne (ha.trans h.symm)
    simp [List.filter_cons, ha, hb]
  · by_cases hb : b.runNumberInt = k
    · simp [List.filter_cons, ha, hb]
    · simp [List.filter_cons, ha, hb]

theorem filter_cons_congr {α : Type} (x : α) (p : α → Bool) {l₁ l₂ : List α}
    (h : l₁.filter p = l₂.filter p) : (x :: l₁).filter p = (x :: l₂).filter p := by
  rw [List.filter_cons, List.filter_cons, h]

theorem bubbleFrom_filter (a : Run) (t : List Run) (k : Int) :
    (bubbleFrom a t).1.filter (fun x => decide (x.runNumberInt = k))
      = (a :: t).filter (fun x => decide (x.runNumberInt = k)) := by
  induction t generalizing a with
  | nil => rfl
  | cons b t ih =>
    unfold bubbleFrom
    by_cases hab : lowestTest a b = true
    · have hgt : b.runNumberInt < a.runNumberInt := by
        unfold lowestTest at hab
        simpa using hab
      rw [if_pos hab]
      show (b :: (bubbleFrom a t).1).filter _ = _
      exact (filter_cons_congr b _ (ih a)).trans (filter_swap a b t k (by omega))
    · rw [if_neg hab]
      show (a :: (bubbleFrom b t).1).filter _ = _
      exact filter_cons_congr a _ (ih b)

theorem bubblePass_filter (l : List Run) (k : Int) :
    (bubblePass l).1.filter (fun x => decide (x.runNumberInt = k))
      = l.filter (fun x => decide (x.runNumberInt = k)) := by
  cases l with
  | nil => rfl
  | cons a t => exact bubbleFrom_filter a t k

theorem orderLoop_filter (i fuel spot : Nat) (flag : Bool) (l : List Run) (k : Int) :
    (orderLoop i fuel spot flag l).filter (fun x => decide (x.runNumberInt = k))
      = l.filter (fun x => decide (x.runNumberInt = k)) := by
  induction fuel generalizing spot flag l with
  | zero => rfl
  | succ fuel ih =>
    unfold orderLoop
    split
    · exact (ih _ _ _).trans (bubblePass_filter l k)
    · rfl

theorem sorted_append_of {front back : List Run}
    (hf : front.Sorted (fun a b => a.runNumberInt ≤ b.runNumberInt))
    (hb : back.Sorted (fun a b => a.runNumberInt ≤ b.runNumberInt))
    (hcross : ∀ x ∈ front, ∀ y ∈ back, x.runNumberInt ≤ y.runNumberInt) :
    (front ++ back).Sorted (fun a b => a.runNumberInt ≤ b.runNumberInt) :=
  List.pairwise_append.mpr ⟨hf, hb, hcross⟩

theorem orderLoop_sorted :
    ∀ (fuel spot : Nat) (flag : Bool) (front back : List Run),
      back.Sorted (fun a b => a.runNumberInt ≤ b.runNumberInt) →
      (∀ x ∈ front, ∀ y ∈ back, x.runNumberInt ≤ y.runNumberInt) →
      spot = back.length + 1 →
      (flag = false → (front ++ back).Sorted (fun a b => a.runNumberInt ≤ b.runNumberInt)) →
      (front ++ back).length + 1 ≤ fuel + spot →
      (orderLoop (front ++ back).length fuel spot flag (front ++ back)).Sorted
        (fun a b => a.runNumberInt ≤ b.runNumberInt) := by
  intro fuel
  induction fuel with
  | zero =>
    intro spot flag front back hback _ hspot _ hfuel
    have hfront : front = [] := by
      apply List.length_eq_zero.mp
      rw [List.length_append] at hfuel
      omega
    rw [hfront]
    exact hback
  | succ fuel ih =>
    intro spot flag front back hback hcross hspot hflag hfuel
    unfold orderLoop
    by_cases hcond : spot < (front ++ back).length ∧ flag = true
    · rw [if_pos hcond]
      cases front with
      | nil =>
        exfalso
        have := hcond.1
        rw [List.nil_append] at this
        omega
      | cons a t =>
        obtain ⟨init, m, hres, hmax⟩ := bubbleFrom_last a t
        have hperm : (init ++ [m]).Perm (a :: t) := hres ▸ bubbleFrom_perm a t
        have hm : m ∈ a :: t := hperm.mem_iff.mp (by simp)
        have hinit : ∀ x ∈ init, x ∈ a :: t := fun x hx =>
          hperm.mem_iff.mp (List.mem_append_left _ hx)
        have hpass : bubblePass (a :: t ++ back)
            = (init ++ (m :: back), (bubbleFrom a t).2) := by
          show bubbleFrom a (t ++ back) = _
          rw [bubbleFrom_append a t back hback hcross, hres]
          simp
        have hlen : (a :: t ++ back).length = (init ++ (m :: back)).length := by
          have := hperm.length_eq
          simp only [List.length_append, List.length_cons, List.length_nil] at this ⊢
          omega
        rw [hpass]
        simp only []
        rw [hlen]
        apply ih (spot + 1) (bubbleFrom a t).2 init (m :: back)
        · exact List.sorted_cons.mpr ⟨fun y hy => hcross m hm y hy, hback⟩
        · intro x hx y hy
          rcases List.mem_cons.mp hy with hym | hyb
          · rw [hym]; exact hmax x (hinit x hx)
          · exact hcross x (hinit x hx) y hyb
        · rw [List.length_cons, hspot]
        · intro hf
          have hsorted := bubbleFrom_flag a t hf
          have hsame : init ++ [m] = a :: t := by
            rw [← hres, bubbleFrom_sorted a t hsorted]
          have : init ++ (m :: back) = (a :: t) ++ back := by
            rw [← hsame]
            simp
          rw [this]
          exact sorted_append_of hsorted hback hcross
        · rw [← hlen]
          omega
    · rw [if_neg hcond]
      by_cases hf : flag = false
      · exact hflag hf
      · have hflagt : flag = true := by
          cases flag
          · exact absurd rfl hf
          · rfl
        have hge : (front ++ back).length ≤ spot := by
          by_contra hlt
          exact hcond ⟨by omega, hflagt⟩
        rw [List.length_append] at hge
        have hfl : front.length ≤ 1 := by omega
        apply sorted_append_of _ hback hcross
        cases front with
        | nil => exact List.sorted_nil
        | cons a t =>
          have : t = [] := List.length_eq_zero.mp (by simpa using hfl)
          rw [this]
          exact List.sorted_singleton a

theorem orderRuns_sorted (l : List Run) :
    (orderRuns l).Sorted (fun a b => a.runNumberInt ≤ b.runNumberInt) := by
  have := orderLoop_sorted l.length 1 true l [] List.sorted_nil (fun _ _ y hy => by cases hy)
    rfl (fun h => by cases h) (by simp)
  rw [List.append_nil] at this
  exact this

theorem orderRuns_filter (l : List Run) (k : Int) :
    (orderRuns l).filter (fun x => decide (x.runNumberInt = k))
      = l.filter (fun x => decide (x.runNumberInt = k)) :=
  orderLoop_filter _ _ _ _ _ k

theorem orderedInsert_filter (a : Run) (l : List Run) (k : Int) :
    (l.orderedInsert (fun a b => a.runNumberInt ≤ b.runNumberInt) a).filter
        (fun x => decide (x.runNumberInt = k))
      = (a :: l).filter (fun x => decide (x.runNumberInt = k)) := by
  induction l with
  | nil => rfl
  | cons b l ih =>
    by_cases hab : a.runNumberInt ≤ b.runNumberInt
    · rw [List.orderedInsert, if_pos hab]
    · rw [List.orderedInsert, if_neg hab]
      exact (filter_cons_congr b _ ih).trans (filter_swap a b l k (by omega))

theorem stableSort_filter (l : List Run) (k : Int) :
    (stableSort l).filter (fun x => decide (x.runNumberInt = k))
      = l.filter (fun x => decide (x.runNumberInt = k)) := by
  unfold stableSort
  induction l with
  | nil => rfl
  | cons a l ih =>
    rw [List.insertionSort, orderedInsert_filter]
    exact filter_cons_congr a _ ih

theorem stableSort_sorted (l : List Run) :
    (stableSort l).Sorted (fun a b => a.runNumberInt ≤ b.runNumberInt) := by
  have htotal : IsTotal Run (fun a b => a.runNumberInt ≤ b.runNumberInt) :=
    ⟨fun a b => le_total a.runNumberInt b.runNumberInt⟩
  have htrans : IsTrans Run (fun a b => a.runNumberInt ≤ b.runNumberInt) :=
    ⟨fun _ _ _ h1 h2 => le_trans h1 h2⟩
  exact List.sorted_insertionSort (fun a b : Run => a.runNumberInt ≤ b.runNumberInt) l

theorem mem_of_filter_eq {l₁ l₂ : List Run} {a : Run}
    (h : ∀ k : Int, l₁.filter (fun x => decide (x.runNumberInt = k))
      = l₂.filter (fun x => decide (x.runNumberInt = k)))
    (ha : a ∈ l₁) : a ∈ l₂ := by
  have : a ∈ l₁.filter (fun x => decide (x.runNumberInt = a.runNumberInt)) :=
    List.mem_filter.mpr ⟨ha, by simp⟩
  rw [h] at this
  exact (List.mem_filter.mp this).1

theorem sorted_filter_ext :
    ∀ l₁ l₂ : List Run,
      l₁.Sorted (fun a b => a.runNumberInt ≤ b.runNumberInt) →
      l₂.Sorted (fun a b => a.runNumberInt ≤ b.runNumberInt) →
      (∀ k : Int, l₁.filter (fun x => decide (x.runNumberInt = k))
        = l₂.filter (fun x => decide (x.runNumberInt = k))) →
      l₁ = l₂ := by
  intro l₁
  induction l₁ with
  | nil =>
    intro l₂ _ _ h
    cases l₂ with
    | nil => rfl
    | cons b t =>
      have : b ∈ ([] : List Run) := mem_of_filter_eq (fun k => (h k).symm) (List.mem_cons_self _ _)
      cases this
  | cons a t₁ ih =>
    intro l₂ h₁ h₂ h
    cases l₂ with
    | nil =>
      have : a ∈ ([] : List Run) := mem_of_filter_eq h (List.mem_cons_self _ _)
      cases this
    | cons b t₂ =>
      have hba : b.runNumberInt ≤ a.runNumberInt := by
        rcases List.mem_cons.mp (mem_of_filter_eq h (List.mem_cons_self a t₁)) with hab | hat
        · rw [hab]
        · exact List.rel_of_sorted_cons h₂ a hat
      have hab : a.runNumberInt ≤ b.runNumberInt := by
        rcases List.mem_cons.mp (mem_of_filter_eq (fun k => (h k).symm)
          (List.mem_cons_self b t₂)) with hba' | hbt
        · rw [hba']
        · exact List.rel_of_sorted_cons h₁ b hbt
      have hkey : b.runNumberInt = a.runNumberInt := by omega
      have hhead : a = b := by
        have := h a.runNumberInt
        rw [List.filter_cons, List.filter_cons, if_pos (by simp), if_pos (by simp [hkey])] at this
        exact (List.cons.inj this).1
      subst hhead
      have htail : ∀ k : Int, t₁.filter (fun x => decide (x.runNumberInt = k))
          = t₂.filter (fun x => decide (x.runNumberInt = k)) := by
        intro k
        have := h k
        rw [List.filter_cons, List.filter_cons] at this
        by_cases hk : a.runNumberInt = k
        · rw [if_pos (by simp [hk]), if_pos (by simp [hk])] at this
          exact (List.cons.inj this).2
        · rw [if_neg (by simp [hk]), if_neg (by simp [hk])] at this
          exact this
      rw [ih t₂ h₁.of_cons h₂.of_cons htail]

theorem orderRuns_eq_stableSort (l : List Run) : orderRuns l = stableSort l :=
  sorted_filter_ext _ _ (orderRuns_sorted l) (stableSort_sorted l)
    (fun k => (orderRuns_filter l k).trans (stableSort_filter l k).symm)

theorem lowestRun_orderRuns (l : List Run) : lowestRun (orderRuns l) = (orderRuns l)[0]? := by
  cases hl : orderRuns l with
  | nil => rfl
  | cons first t =>
    have hs : (first :: t).Sorted (fun a b => a.runNumberInt ≤ b.runNumberInt) :=
      hl ▸ orderRuns_sorted l
    have hall : ∀ run ∈ first :: t, first.runNumberInt ≤ run.runNumberInt := by
      intro run hrun
      rcases List.mem_cons.mp hrun with h | h
      · rw [h]
      · exact List.rel_of_sorted_cons hs run h
    unfold lowestRun
    rw [List.getElem?_cons_zero]
    exact congrArg some (foldl_findLowestRun_fixed _ _ hall)

theorem orderLoop_fuel (i : Nat) :
    ∀ (fuel spot : Nat) (flag : Bool) (l : List Run), i ≤ fuel + spot →
      orderLoop i (fuel + 1) spot flag l = orderLoop i fuel spot flag l := by
  intro fuel
  induction fuel with
  | zero =>
    intro spot flag l h
    unfold orderLoop
    rw [if_neg (by omega)]
  | succ fuel ih =>
    intro spot flag l h
    rw [orderLoop.eq_def i (fuel + 1 + 1), orderLoop.eq_def i (fuel + 1)]
    simp only []
    by_cases hcond : spot < i ∧ flag = true
    · rw [if_pos hcond, if_pos hcond]
      exact ih _ _ _ (by omega)
    · rw [if_neg hcond, if_neg hcond]

/-- C16. The flag-controlled bubble sort of `LEDanalysis` leaves the collection equal to a stable
sort of the original by run identifier: the result is the insertion sort of the collection, it
is ascending by identifier, it is a permutation of the input, and the runs of each identifier
keep their original relative order; `n - 1` passes suffice for `n` runs. -/
theorem orderRuns_stable (collection : List Run) :
    orderRuns collection = stableSort collection ∧
    (orderRuns collection).Sorted (fun a b => a.runNumberInt ≤ b.runNumberInt) ∧
    (orderRuns collection).Perm collection ∧
    (∀ k : Int, (orderRuns collection).filter (fun x => decide (x.runNumberInt = k))
      = collection.filter (fun x => decide (x.runNumberInt = k))) ∧
    orderLoop collection.length (collection.length - 1) 1 true collection
      = orderRuns collection := by
  refine ⟨orderRuns_eq_stableSort collection, orderRuns_sorted collection,
    orderRuns_perm collection, orderRuns_filter collection, ?_⟩
  unfold orderRuns
  cases hn : collection.length with
  | zero => rfl
  | succ n => exact (orderLoop_fuel (n + 1) n 1 true collection (le_refl _)).symm

/-- C19. For a non-empty collection, after the ordering loop of `LEDanalysis` the baseline chosen
by the `findLowestRun` fold is the run at position 0 of the ordered collection; its identifier
is the smallest of the collection, and when several runs share it the baseline is the one of
them that was listed first. -/
theorem baseline_first (collection : List Run) (hne : collection ≠ []) :
    ∃ first, (orderRuns collection)[0]? = some first ∧
      lowestRun (orderRuns collection) = some first ∧
      (∀ run ∈ collection, first.runNumberInt ≤ run.runNumberInt) ∧
      (collection.filter (fun x => decide (x.runNumberInt = first.runNumberInt)))[0]?
        = some first := by
  have hne' : orderRuns collection ≠ [] := fun h =>
    hne (List.Perm.eq_nil (h ▸ (orderRuns_perm collection).symm))
  obtain ⟨first, t, hft⟩ := List.exists_cons_of_ne_nil hne'
  have hs : (first :: t).Sorted (fun a b => a.runNumberInt ≤ b.runNumberInt) :=
    hft ▸ orderRuns_sorted collection
  refine ⟨first, by rw [hft, List.getElem?_cons_zero], ?_, ?_, ?_⟩
  · rw [lowestRun_orderRuns, hft, List.getElem?_cons_zero]
  · intro run hrun
    have hmem : run ∈ first :: t := hft ▸ (orderRuns_perm collection).mem_iff.mpr hrun
    rcases List.mem_cons.mp hmem with h | h
    · rw [h]
    · exact List.rel_of_sorted_cons hs run h
  · rw [← orderRuns_filter collection first.runNumberInt, hft, List.filter_cons,
      if_pos (by simp), List.getElem?_cons_zero]

/-- Witness of C19: run 2 followed by two different runs with the identifier 1. -/
theorem baseline_first_witness :
    [Run.blank ['2'] 2, Run.blank ['a'] 1, Run.blank ['b'] 1] ≠ [] ∧
      ∃ first, (orderRuns [Run.blank ['2'] 2, Run.blank ['a'] 1, Run.blank ['b'] 1])[0]?
          = some first ∧
        lowestRun (orderRuns [Run.blank ['2'] 2, Run.blank ['a'] 1, Run.blank ['b'] 1])
          = some first :=
  ⟨by decide, (baseline_first [Run.blank ['2'] 2, Run.blank ['a'] 1, Run.blank ['b'] 1]
    (by decide)).elim (fun first h => ⟨first, h.1, h.2.1⟩)⟩

/-! ## A malformed run number -/

theorem parseRunNumber_marker (pre five post : List Char) (hfive : five.length = 5)
    (hfirst : ∀ q, q < pre.length → ¬ marker <+: (pre ++ marker ++ five ++ post).drop q) :
    parseRunNumber (pre ++ marker ++ five ++ post)
      = (stoi five).map (fun n => (five, n)) := by
  have hfind : find (pre ++ marker ++ five ++ post) marker = some pre.length := by
    apply find_first
    · simp only [List.length_append]
      omega
    · rw [List.isPrefixOf_iff_prefix]
      simp only [List.append_assoc, List.drop_left]
      exact List.prefix_append _ _
    · intro q hq
      have := hfirst q hq
      rw [← List.isPrefixOf_iff_prefix] at this
      exact Bool.eq_false_iff.mpr this
  unfold parseRunNumber
  simp only [hfind]
  have hpos : ((pre.length : Int) + 10).toNat = pre.length + 10 := by omega
  have hsub : substr (pre ++ marker ++ five ++ post) (pre.length + 10) 5 = .ok five := by
    unfold substr
    rw [if_neg (by simp [marker])]
    have : (pre ++ marker ++ five ++ post) = (pre ++ marker) ++ (five ++ post) := by simp
    rw [this, List.drop_left' (by simp [marker]), ← hfive, List.take_left]
  rw [hpos, hsub]
  simp only [bind, Except.bind, Except.map, pure, Except.pure]


theorem foldl_digits_lt (ds : List Char) :
    ∀ acc : Nat, (∀ c ∈ ds, isDigit c = true) →
      ds.foldl (fun acc c => 10 * acc + digitVal c) acc < (acc + 1) * 10 ^ ds.length := by
  induction ds with
  | nil => intro acc _; simp
  | cons d ds ih =>
    intro acc h
    have hd := digitVal_le (h d (List.mem_cons_self _ _))
    have := ih (10 * acc + digitVal d) (fun c hc => h c (List.mem_cons_of_mem _ hc))
    rw [List.foldl_cons]
    refine lt_of_lt_of_le this ?_
    have e : (acc + 1) * 10 ^ (d :: ds).length = (10 * acc + 10) * 10 ^ ds.length := by
      rw [List.length_cons, pow_succ]
      ring
    rw [e]
    apply Nat.mul_le_mul_right
    omega

theorem length_readSign (s : List Char) : (readSign s).2.length ≤ s.length := by
  unfold readSign
  split <;> simp

theorem stoi_error_short (s : List Char) (hs : s.length ≤ 5) (e : Fault)
    (h : stoi s = .error e) : e = .invalid_argument := by
  unfold stoi at h
  simp only [] at h
  split at h
  · rename_i hds
    injection h with h
    exact h.symm
  · rename_i hds
    exfalso
    have hall : ∀ c ∈ (readSign (s.dropWhile isSpace)).2.takeWhile isDigit, isDigit c = true :=
      fun c hc => List.mem_takeWhile_imp hc
    have hlen : ((readSign (s.dropWhile isSpace)).2.takeWhile isDigit).length ≤ 5 := by
      have h1 : ((readSign (s.dropWhile isSpace)).2.takeWhile isDigit).length
          ≤ (readSign (s.dropWhile isSpace)).2.length :=
        (List.takeWhile_sublist isDigit).length_le
      have h2 := length_readSign (s.dropWhile isSpace)
      have h3 : (s.dropWhile isSpace).length ≤ s.length :=
        (List.dropWhile_sublist isSpace).length_le
      omega
    have hlt := foldl_digits_lt _ 0 hall
    have hpow : 10 ^ ((readSign (s.dropWhile isSpace)).2.takeWhile isDigit).length
        ≤ 10 ^ 5 := Nat.pow_le_pow_right (by decide) hlen
    rw [if_neg (by
      split <;> omega)] at h
    cases h

theorem construct_parse_error {filename : List Char} {e : Fault}
    (h : parseRunNumber filename = .error e) (source : Option (List Row)) :
    Run.construct filename source = .error e := by
  unfold Run.construct
  rw [h]
  rfl

theorem mapM_error {α β : Type} (f : α → Except Fault β) :
    ∀ (l : List α) (j : Nat) (a : α) (e : Fault), l[j]? = some a → f a = .error e →
      ∃ e', l.mapM f = .error e' := by
  intro l
  induction l with
  | nil => intro j a e h; simp at h
  | cons b t ih =>
    intro j a e h hf
    rw [List.mapM_cons]
    cases hb : f b with
    | error e0 => exact ⟨e0, rfl⟩
    | ok v =>
      cases j with
      | zero =>
        rw [List.getElem?_cons_zero] at h
        rw [Option.some.inj h, hf] at hb
        cases hb
      | succ j =>
        rw [List.getElem?_cons_succ] at h
        obtain ⟨e', he'⟩ := ih j a e h hf
        rw [he']
        exact ⟨e', rfl⟩

theorem LEDanalysis_load_error {path : List Char} {testFiles : List (List Char)}
    {source : List Char → Option (List Row)} {e : Fault}
    (h : loadCollection path testFiles source = .error e) :
    LEDanalysis path testFiles source = .error e := by
  unfold LEDanalysis
  rw [h]
  rfl

theorem parse_fileBad : parseRunNumber (samplePath ++ fileBad) = .error .invalid_argument := by
  decide!

/-- The conversion of `stoi` stops at the first character that is no digit: the name
`ftCalLed_-12abc_.txt` gives the run number 12. -/
theorem parse_digit_prefix :
    parseRunNumber (samplePath ++ "ftCalLed_-12abc_.txt".data)
      = .ok (['1', '2', 'a', 'b', 'c'], 12) := by decide!

theorem orderRuns_single (run : Run) : orderRuns [run] = [run] := rfl

theorem lowestRun_single (run : Run) : lowestRun [run] = some run := by
  simp [lowestRun, findLowestRun]

theorem load_file1 :
    loadCollection samplePath [file1] openSource
      = .ok [sampleRun name1 (constRows annulus 1)] := by
  unfold loadCollection
  rw [List.mapM_cons, List.mapM_nil]
  have h : Run.construct (samplePath ++ file1) (openSource (samplePath ++ file1))
      = .ok (sampleRun name1 (constRows annulus 1)) := annulus_ok1 1
  rw [h]
  rfl

theorem LEDanalysis_single {path file : List Char} {source : List Char → Option (List Row)}
    {run ratioed run' : Run} (hload : loadCollection path [file] source = .ok [run])
    (hs : setRatio run run = .ok ratioed) (hp : setParameters ratioed = .ok run') :
    LEDanalysis path [file] source = .ok [run'] := by
  unfold LEDanalysis
  rw [hload]
  simp only [bind, Except.bind, orderRuns_single, lowestRun_single, List.mapM_cons,
    List.mapM_nil, hs, hp, pure, Except.pure]

theorem file1_processed :
    ∃ run, LEDanalysis samplePath [file1] openSource = .ok [run] ∧ run.average.length = 39 := by
  have hc := annulus_ok1 1
  have hb := construct_built hc
  have hs := setRatio_runOf hb.length_ampMean hb.length_ampMean
  obtain ⟨hready, hr, _⟩ := setRatio_ready hb hs
  have h39 : 39 ≤ (rSorted (runOf (setRatio (sampleRun name1 (constRows annulus 1))
      (sampleRun name1 (constRows annulus 1)))).r).length := by
    rw [hr, annulus_39 hc]
  obtain ⟨_, _, run', _, hp, _, _, _, hlen, _⟩ := setParameters_lengths _ hready h39
  exact ⟨run', LEDanalysis_single load_file1 hs hp, hlen⟩

/-- C11, as stated, fails: the file of run 1 alone is processed, but with a second file whose
name has the letters `abcde` after the marker the constructor throws `invalid_argument`, the
loading loop ends with that exception and so does `LEDanalysis`: run 1 is not processed. -/
theorem malformed_not_confined :
    (∃ run, LEDanalysis samplePath [file1] openSource = .ok [run]) ∧
      Run.construct (samplePath ++ fileBad) (openSource (samplePath ++ fileBad))
        = .error .invalid_argument ∧
      loadCollection samplePath [file1, fileBad] openSource = .error .invalid_argument ∧
      LEDanalysis samplePath [file1, fileBad] openSource = .error .invalid_argument := by
  have hbad := construct_parse_error parse_fileBad (openSource (samplePath ++ fileBad))
  have hload : loadCollection samplePath [file1, fileBad] openSource
      = .error .invalid_argument := by
    unfold loadCollection
    rw [List.mapM_cons, List.mapM_cons, List.mapM_nil, hbad]
    have h : Run.construct (samplePath ++ file1) (openSource (samplePath ++ file1))
        = .ok (sampleRun name1 (constRows annulus 1)) := annulus_ok1 1
    rw [h]
    rfl
  obtain ⟨run, h, _⟩ := file1_processed
  exact ⟨⟨run, h⟩, hbad, hload, LEDanalysis_load_error hload⟩

/-- C11, amended. When the name of a file of the list is `pre ++ "ftCalLed_-" ++ five ++ post`
with the marker first found after `pre`, `five` of five characters, and `stoi` converts no
integer from `five`, then the exception is `invalid_argument`, the constructor throws it
whatever opening the file gives, and the exception is not caught: the loading loop and
`LEDanalysis` end with an exception, so no run of the collection is ordered, compared with a
baseline or processed. -/
theorem malformed_identifier_aborts (path : List Char) (testFiles : List (List Char))
    (source : List Char → Option (List Row)) (j : Nat) (f pre five post : List Char)
    (e : Fault) (hj : testFiles[j]? = some f)
    (hname : path ++ f = pre ++ marker ++ five ++ post) (hfive : five.length = 5)
    (hfirst : ∀ q, q < pre.length → ¬ marker <+: (path ++ f).drop q)
    (hstoi : stoi five = .error e) :
    e = .invalid_argument ∧
      (∀ src, Run.construct (path ++ f) src = .error .invalid_argument) ∧
      (∃ e', loadCollection path testFiles source = .error e') ∧
      (∃ e', LEDanalysis path testFiles source = .error e') ∧
      ∀ runs, LEDanalysis path testFiles source ≠ .ok runs := by
  have he : e = .invalid_argument := stoi_error_short five (le_of_eq hfive) e hstoi
  subst he
  have hparse : parseRunNumber (path ++ f) = .error .invalid_argument := by
    rw [hname] at hfirst ⊢
    rw [parseRunNumber_marker pre five post hfive hfirst, hstoi]
    rfl
  have hc : ∀ src, Run.construct (path ++ f) src = .error .invalid_argument :=
    fun src => construct_parse_error hparse src
  obtain ⟨e', he'⟩ := mapM_error
    (fun f => Run.construct (path ++ f) (source (path ++ f))) testFiles j f _ hj (hc _)
  have hl : loadCollection path testFiles source = .error e' := he'
  refine ⟨rfl, hc, ⟨e', hl⟩, ⟨e', LEDanalysis_load_error hl⟩, ?_⟩
  intro runs h
  rw [LEDanalysis_load_error hl] at h
  cases h

/-- Witness of C11: the files of run 1 and of the name with `abcde`, every file being opened. -/
theorem malformed_identifier_aborts_witness :
    [file1, fileBad][1]? = some fileBad ∧
      stoi ['a', 'b', 'c', 'd', 'e'] = .error .invalid_argument ∧
      (∃ e', LEDanalysis samplePath [file1, fileBad] openSource = .error e') :=
  ⟨rfl, by decide,
    (malformed_identifier_aborts samplePath [file1, fileBad] openSource 1 fileBad samplePath
      ['a', 'b', 'c', 'd', 'e'] "_.txt".data .invalid_argument rfl (by decide) rfl
      (by decide) (by decide)).2.2.2.1⟩
end PlotScripts
